import Mathlib

/-!
# deixis/pkg — the typed flat-key decoder (`httputil.ParseQuery`) and `ParseContentRange`

A shallow embedding of `src/httputil/parser.go` and `src/httputil/range.go`, and of the
library functions they call.  The arithmetic of `src/utc/utc.go` follows in namespace `Utc`.

Modelling conventions

* A Go `string` is a list of characters (`Str`).  The code only ever inspects ASCII
  separators, the ASCII digits, the two sign characters, the twelve boolean spellings and
  white space, so nothing depends on the encoding of the other characters; indices and slices
  are taken in characters on both sides of every slice expression.
* `url.Values` is an association list from key to value list; the first entry of a key is
  the one a Go map lookup finds.
* A struct field is its `qs` tag (the result of `Tag.Lookup`), its static type and its
  current value.  Values form a tree: a non-nil pointer owns its pointee, so two fields never
  alias each other.  Only exported fields are represented (reflection refuses to set the
  others), and interface-typed fields holding a pointer to a pointer are not represented.
* `int` and `uint` are 64 bits wide.
* `strconv.ParseFloat` and the float64 to float32 conversion are parameters (`FloatLib`).
-/

namespace Httputil

/-- Go `string`. -/
abbrev Str := List Char

/-! ## `strings.Index` with a one-character separator, and slicing -/

/-- The loop behind `strings.Index(s, sep)` for a one-character `sep`: the index of the first
occurrence, counted from `i`, or `-1`. -/
def indexFrom (sep : Char) : Str → Nat → Int
  | [], _ => -1
  | c :: cs, i => if c = sep then (i : Int) else indexFrom sep cs (i + 1)

/-- Go `strings.Index(s, string(sep))`. -/
def stringsIndex (s : Str) (sep : Char) : Int :=
  indexFrom sep s 0

/-- Go `s[:i]`. -/
def sliceTo (s : Str) (i : Int) : Str :=
  s.take i.toNat

/-- Go `s[i:]`. -/
def sliceFrom (s : Str) (i : Int) : Str :=
  s.drop i.toNat

/-! ## Tag metadata (`parser.go:146-179`) -/

/-- Go `type tagOptions string`. -/
abbrev tagOptions := Str

/-- Go `parseTag`: split a field tag into its name and its comma-separated options. -/
def parseTag (tag : Str) : Str × tagOptions :=
  let idx := stringsIndex tag ','
  if idx ≠ -1 then
    (sliceTo tag idx, sliceFrom tag (idx + 1))
  else
    (tag, [])

/-- The `for s != ""` loop of `tagOptions.Contains`.  Every iteration replaces `s` by a strictly
shorter string, so `fuel = len(s) + 1` iterations always suffice. -/
def containsLoop (optionName : Str) : Nat → Str → Bool
  | 0, _ => false
  | fuel + 1, s =>
    if s = [] then false
    else
      let i := stringsIndex s ','
      let cur := if i ≥ 0 then sliceTo s i else s
      let next := if i ≥ 0 then sliceFrom s (i + 1) else []
      if cur = optionName then true
      else containsLoop optionName fuel next

/-- Go `tagOptions.Contains`. -/
def tagOptions.Contains (o : tagOptions) (optionName : Str) : Bool :=
  if o.length = 0 then false
  else containsLoop optionName (o.length + 1) o

/-! ## `url.Values` -/

/-- Go `url.Values`, a `map[string][]string`. -/
abbrev Values := List (Str × List Str)

/-- Go `Values.Get`: the first value associated with the key, or `""`. -/
def Values.Get (q : Values) (key : Str) : Str :=
  match q.lookup key with
  | some (v :: _) => v
  | _ => []

/-- The input holds no non-empty value under the key: the key is absent, or every value
listed under it is the empty string. -/
def Values.hasNoValue (q : Values) (key : Str) : Prop :=
  ∀ v ∈ (q.lookup key).getD [], v = []

instance (q : Values) (key : Str) : Decidable (q.hasNoValue key) := by
  unfold Values.hasNoValue
  infer_instance

/-! ## Errors -/

/-- Go `strconv.ErrSyntax` and `strconv.ErrRange`. -/
inductive NumErrKind
  | ErrSyntax
  | ErrRange
  deriving DecidableEq, Repr

/-- Go `*strconv.NumError`: the failing function, the rejected text and the reason. -/
structure NumError where
  Func : Str
  Num : Str
  Err : NumErrKind
  deriving DecidableEq, Repr

/-- An error value handed to `errors.WithBad`: a `strconv` failure, or whatever a field's own
`UnmarshalText` returned. -/
inductive Cause
  | numError (e : NumError)
  | custom (msg : Str)
  deriving DecidableEq, Repr

/-- Go `errors.FieldViolation`, with the two members `ParseQuery` fills in. -/
structure FieldViolation where
  Field : Str
  Description : Str
  deriving DecidableEq, Repr

/-- The error values `ParseQuery` returns, recorded as the constructor call that made them:
`errors.New(msg)`, `errors.Bad(&violation)` and `errors.WithBad(err)`. -/
inductive Err
  | New (msg : Str)
  | Bad (violation : FieldViolation)
  | WithBad (cause : Cause)
  deriving DecidableEq, Repr

/-- The field key an error value was built from, when there is one. -/
def Err.fieldKey : Err → Option Str
  | .Bad v => some v.Field
  | .New _ => none
  | .WithBad _ => none

/-! ## `strconv` at base 10 and 64 bits -/

/-- Go `1<<64 - 1`. -/
def maxUint64 : Nat := 2 ^ 64 - 1

/-- The `cutoff` of `strconv.ParseUint` for base 10: the least `n` with `n * 10 > maxUint64`. -/
def cutoff10 : Nat := maxUint64 / 10 + 1

/-- The digit loop of `strconv.ParseUint(s, 10, 64)` with accumulator `n`.  At base 10 every
byte that is not an ASCII digit ends in a `syntaxError`; the result pairs the returned number
with the failure, if any. -/
def parseUintLoop : List Char → Nat → Nat × Option NumErrKind
  | [], n => (n, none)
  | c :: cs, n =>
    if '0' ≤ c ∧ c ≤ '9' then
      let d := c.toNat - '0'.toNat
      if n ≥ cutoff10 then (maxUint64, some .ErrRange)
      else
        let n10 := n * 10 % 2 ^ 64
        let n1 := (n10 + d) % 2 ^ 64
        if n1 < n10 ∨ n1 > maxUint64 then (maxUint64, some .ErrRange)
        else parseUintLoop cs n1
    else (0, some .ErrSyntax)

/-- Go `strconv.ParseUint(s, 10, 64)`. -/
def ParseUint (s : Str) : Nat × Option NumError :=
  if s = [] then (0, some ⟨"ParseUint".toList, s, .ErrSyntax⟩)
  else
    match parseUintLoop s 0 with
    | (n, none) => (n, none)
    | (n, some k) => (n, some ⟨"ParseUint".toList, s, k⟩)

/-- Go `strconv.ParseInt(s, 10, 64)`. -/
def ParseInt (s0 : Str) : Int × Option NumError :=
  match s0 with
  | [] => (0, some ⟨"ParseInt".toList, s0, .ErrSyntax⟩)
  | c :: rest =>
    let neg : Bool := decide (c = '-')
    let s := if c = '+' ∨ c = '-' then rest else s0
    let r := ParseUint s
    let un := r.1
    let cutoff : Nat := 2 ^ 63
    if r.2 ≠ none ∧ r.2.map NumError.Err ≠ some .ErrRange then
      (0, some ⟨"ParseInt".toList, s0, .ErrSyntax⟩)
    else if !neg ∧ un ≥ cutoff then
      ((cutoff : Int) - 1, some ⟨"ParseInt".toList, s0, .ErrRange⟩)
    else if neg ∧ un > cutoff then
      (-(cutoff : Int), some ⟨"ParseInt".toList, s0, .ErrRange⟩)
    else if neg then (-(un : Int), none)
    else ((un : Int), none)

/-- Go `strconv.ParseBool`. -/
def ParseBool (str : Str) : Bool × Option NumError :=
  if str ∈ ["1".toList, "t".toList, "T".toList, "TRUE".toList, "true".toList, "True".toList] then
    (true, none)
  else if str ∈ ["0".toList, "f".toList, "F".toList, "FALSE".toList, "false".toList,
      "False".toList] then
    (false, none)
  else (false, some ⟨"ParseBool".toList, str, .ErrSyntax⟩)

/-- Go `strconv.FormatUint(n, 10)`: the base-10 text of `n`. -/
def FormatUint (n : Nat) : Str :=
  Nat.toDigits 10 n

/-- Go `strconv.FormatInt(i, 10)`: the base-10 text of `i`, with a leading `-` when negative. -/
def FormatInt (i : Int) : Str :=
  if i < 0 then '-' :: Nat.toDigits 10 i.natAbs else Nat.toDigits 10 i.toNat

/-- The floating-point part of the standard library, which the decoder only calls:
`strconv.ParseFloat(s, 64)` producing the bits of a float64, and the conversion
`float32(x)` that `reflect.Value.SetFloat` applies to a float32 field. -/
structure FloatLib where
  ParseFloat : Str → Nat × Option NumError
  toFloat32 : Nat → Nat

/-! ## Values and types as `reflect` shows them -/

/-- Go `reflect.Kind` of a type that is neither a pointer nor invalid. -/
inductive Kind
  | Bool | Int | Int8 | Int16 | Int32 | Int64
  | Uint | Uint8 | Uint16 | Uint32 | Uint64 | Uintptr
  | Float32 | Float64 | Complex64 | Complex128
  | Array | Chan | Func | Interface | Map | Slice | String | Struct | UnsafePointer
  deriving DecidableEq, Repr

/-- The content of a storage location.  Integers carry their mathematical value, floats their
bits, composite kinds (struct, slice, map, ...) a payload the decoder never looks into;
`nil` is a nil pointer and `ref x` a pointer to storage holding `x`. -/
inductive Val
  | int (i : Int)
  | uint (n : Nat)
  | float (bits : Nat)
  | bool (b : Bool)
  | str (s : Str)
  | other (payload : Nat)
  | nil
  | ref (target : Val)
  deriving DecidableEq, Repr

/-- A type's `UnmarshalText(text []byte) error` acting on the storage the receiver points to:
from the text and the old content, the new content and the returned error. -/
abbrev Unmarshaler := Str → Val → Val × Option Cause

/-- Go `reflect.Type` of a field.  `base k named um` is a type of kind `k` that is not a pointer;
`named` is `Type().Name() != ""`, and `um` is the `encoding.TextUnmarshaler` implementation of
the pointer to it, when that pointer type has one.  A pointer to a pointer has no methods. -/
inductive Ty
  | base (k : Kind) (named : Bool) (um : Option Unmarshaler)
  | ptr (elem : Ty)

/-- The zero value of a kind. -/
def Kind.zero : Kind → Val
  | .Bool => .bool false
  | .Int | .Int8 | .Int16 | .Int32 | .Int64 => .int 0
  | .Uint | .Uint8 | .Uint16 | .Uint32 | .Uint64 | .Uintptr => .uint 0
  | .Float32 | .Float64 => .float 0
  | .String => .str []
  | _ => .other 0

/-- The zero value of a type, as stored by `reflect.New(t)`. -/
def Ty.zero : Ty → Val
  | .base k _ _ => k.zero
  | .ptr _ => .nil

/-- What `v.Interface().(encoding.TextUnmarshaler)` finds on a pointer whose element type is
the given one (`parser.go:136-140`). -/
def Ty.ptrUnmarshaler : Ty → Option Unmarshaler
  | .base _ _ um => um
  | .ptr _ => none

/-- The storage a pointer value refers to; for a nil pointer, the storage freshly allocated
for it by `v.Set(reflect.New(v.Type().Elem()))` (`parser.go:133-135`). -/
def Val.pointeeOr (v : Val) (fresh : Val) : Val :=
  match v with
  | .ref x => x
  | _ => fresh

/-- The first result of `indirect`, `ut != nil`, or the kind of the second one. -/
inductive Resolved
  | custom (u : Unmarshaler)
  | leaf (k : Kind)

/-- The `for` loop of `indirect` (`parser.go:120-143`) on a value of the given type: a nil
pointer is set to fresh zeroed storage, a pointer implementing `TextUnmarshaler` is returned,
any other pointer is followed, and a non-pointer ends the loop.  The result is the value with
the allocations made and what the loop resolved to; the storage resolved to is always the one
under all pointer layers (`Ty.getLeaf`). -/
def indirectLoop : Ty → Val → Val × Resolved
  | .base k _ _, v => (v, .leaf k)
  | .ptr elem, v =>
    let target := v.pointeeOr elem.zero
    match elem.ptrUnmarshaler with
    | some u => (.ref target, .custom u)
    | none => (.ref (indirectLoop elem target).1, (indirectLoop elem target).2)

/-- Go `indirect` (`parser.go:113-144`).  A field of a named non-pointer type is entered through
its address: `v.Addr()` is a non-nil pointer to the field, so the loop starts one layer above
the field and the field is what that pointer refers to afterwards.  A field of a struct reached
through a pointer is always addressable. -/
def indirect (ty : Ty) (v : Val) : Val × Resolved :=
  match ty with
  | .base _ true _ =>
    ((indirectLoop (.ptr ty) (.ref v)).1.pointeeOr v, (indirectLoop (.ptr ty) (.ref v)).2)
  | _ => indirectLoop ty v

/-- The content of the storage under all pointer layers of a value; under a nil pointer, the
content of the zeroed storage that `indirect` allocates there. -/
def Ty.getLeaf : Ty → Val → Val
  | .base _ _ _, v => v
  | .ptr elem, v => elem.getLeaf (v.pointeeOr elem.zero)

/-- Overwrite the storage under all pointer layers of a value; nothing is written through a
nil pointer. -/
def Ty.setLeaf : Ty → Val → Val → Val
  | .base _ _ _, _, new => new
  | .ptr elem, .ref x, new => .ref (elem.setLeaf x new)
  | .ptr _, v, _ => v

/-- Two's-complement wrap of an integer to `bits` bits, as by a Go conversion `intN(x)`. -/
def wrapInt (bits : Nat) (i : Int) : Int :=
  (i + 2 ^ (bits - 1)) % 2 ^ bits - 2 ^ (bits - 1)

/-- Go `reflect.Value.SetInt` on storage of a signed integer kind. -/
def SetInt (k : Kind) (i : Int) : Val :=
  match k with
  | .Int8 => .int (wrapInt 8 i)
  | .Int16 => .int (wrapInt 16 i)
  | .Int32 => .int (wrapInt 32 i)
  | _ => .int (wrapInt 64 i)

/-- Go `reflect.Value.SetUint` on storage of an unsigned integer kind. -/
def SetUint (k : Kind) (n : Nat) : Val :=
  match k with
  | .Uint8 => .uint (n % 2 ^ 8)
  | .Uint16 => .uint (n % 2 ^ 16)
  | .Uint32 => .uint (n % 2 ^ 32)
  | _ => .uint (n % 2 ^ 64)

/-- Go `reflect.Value.SetFloat` on storage of a float kind. -/
def SetFloat (fl : FloatLib) (k : Kind) (bits : Nat) : Val :=
  match k with
  | .Float32 => .float (fl.toFloat32 bits)
  | _ => .float bits

/-- The `switch` on the leaf kind (`parser.go:75-103`): from the raw text and the leaf's
content, the new content and the error returned, if any. -/
def coerce (fl : FloatLib) (k : Kind) (qVal : Str) (cur : Val) : Val × Option Err :=
  match k with
  | .Int | .Int32 | .Int64 =>
    match (ParseInt qVal).2 with
    | some e => (cur, some (.WithBad (.numError e)))
    | none => (SetInt k (ParseInt qVal).1, none)
  | .Uint | .Uint32 | .Uint64 =>
    match (ParseUint qVal).2 with
    | some e => (cur, some (.WithBad (.numError e)))
    | none => (SetUint k (ParseUint qVal).1, none)
  | .Float32 | .Float64 =>
    match (fl.ParseFloat qVal).2 with
    | some e => (cur, some (.WithBad (.numError e)))
    | none => (SetFloat fl k (fl.ParseFloat qVal).1, none)
  | .Bool =>
    match (ParseBool qVal).2 with
    | some e => (cur, some (.WithBad (.numError e)))
    | none => (.bool (ParseBool qVal).1, none)
  | .String => (.str qVal, none)
  | _ => (cur, none)

/-! ## The decode orchestrator (`parser.go:32-110`) -/

/-- One field of the target struct: the `qs` tag found by `field.Tag.Lookup` (if any), the
field's type and its current value. -/
structure StructField where
  tag : Option Str
  ty : Ty
  val : Val

/-- The body of the `for` loop of `ParseQuery` for one field (`parser.go:44-103`): the field
afterwards, and the error with which `ParseQuery` returns, if it does. -/
def parseField (fl : FloatLib) (q : Values) (f : StructField) : StructField × Option Err :=
  match f.tag with
  | none => (f, none)
  | some raw =>
    let tag := (parseTag raw).1
    let opts := (parseTag raw).2
    let qVal := q.Get tag
    if qVal = [] then
      if opts.Contains "required".toList then
        (f, some (.Bad ⟨tag, "Missing query string".toList⟩))
      else (f, none)
    else
      let v := (indirect f.ty f.val).1
      match (indirect f.ty f.val).2 with
      | .custom u =>
        let r := u qVal (f.ty.getLeaf v)
        match r.2 with
        | some err => ({ f with val := f.ty.setLeaf v r.1 }, some (.WithBad err))
        | none => ({ f with val := f.ty.setLeaf v r.1 }, none)
      | .leaf k =>
        let r := coerce fl k qVal (f.ty.getLeaf v)
        ({ f with val := f.ty.setLeaf v r.1 }, r.2)

/-- The `for` loop of `ParseQuery` over the fields in declared order: it returns at the first
error, leaving the remaining fields as they are. -/
def parseFields (fl : FloatLib) (q : Values) : List StructField → List StructField × Option Err
  | [] => ([], none)
  | f :: rest =>
    match (parseField fl q f).2 with
    | some e => ((parseField fl q f).1 :: rest, some e)
    | none => ((parseField fl q f).1 :: (parseFields fl q rest).1, (parseFields fl q rest).2)

/-- The argument `v interface{}` of `ParseQuery`, by what `reflect` reports about it.
`typeName` is `reflect.TypeOf(v).String()`. -/
inductive Target
  | untypedNil
  | nonPointer (typeName : Str)
  | nilPointer (typeName : Str)
  | pointerToNonStruct (typeName : Str)
  | pointerToStruct (typeName : Str) (fields : List StructField)

/-- Go `reflect.TypeOf(v)`, as its `String()`; `nil` for an untyped nil. -/
def Target.TypeOf : Target → Option Str
  | .untypedNil => none
  | .nonPointer n => some n
  | .nilPointer n => some n
  | .pointerToNonStruct n => some n
  | .pointerToStruct n _ => some n

/-- Go `reflect.ValueOf(v).Kind() == reflect.Ptr`. -/
def Target.isPtr : Target → Bool
  | .untypedNil => false
  | .nonPointer _ => false
  | _ => true

/-- Go `reflect.ValueOf(v).IsNil()` for a target of pointer kind. -/
def Target.IsNil : Target → Bool
  | .nilPointer _ => true
  | _ => false

/-- How a call of `ParseQuery` ends: it returns (the target as the call leaves it, and the
error), or it panics. -/
inductive Outcome
  | returned (target : Target) (err : Option Err)
  | panicked

/-- Go `ParseQuery` (`parser.go:33-110`).  Calling `String()` on the nil `reflect.Type` of an
untyped nil is a nil dereference. -/
def ParseQuery (fl : FloatLib) (q : Values) (v : Target) : Outcome :=
  if !v.isPtr ∨ v.IsNil then
    match v.TypeOf with
    | none => .panicked
    | some name =>
      .returned v (some (.New ("httputil: ParseQuery(non-pointer ".toList ++ name ++ ")".toList)))
  else
    match v with
    | .pointerToStruct name fields =>
      .returned (.pointerToStruct name (parseFields fl q fields).1) (parseFields fl q fields).2
    | _ =>
      match v.TypeOf with
      | none => .panicked
      | some name =>
        .returned v
          (some (.New ("httputil: ParseQuery(unsupported type ".toList ++ name ++ ")".toList)))

/-- The type with `n` pointer layers over `t`: `*...*t`. -/
def ptrChain : Nat → Ty → Ty
  | 0, t => t
  | n + 1, t => .ptr (ptrChain n t)

/-- The value with `n` allocated pointer layers over the content `x`. -/
def refChain : Nat → Val → Val
  | 0, x => x
  | n + 1, x => .ref (refChain n x)

/-- The error a returning call returned. -/
def Outcome.err : Outcome → Option Err
  | .returned _ e => e
  | .panicked => none

/-- The field values of the struct a returning call leaves behind. -/
def Outcome.fieldVals : Outcome → List Val
  | .returned (.pointerToStruct _ fields) _ => fields.map (fun f => f.val)
  | _ => []

/-! ## The records of `parser_test.go` -/

/-- Go `(*utc.UTC).UnmarshalText` (`utc.go:197-204`) over `utc.Parse`: on a parse error the
receiver is left alone, otherwise it is overwritten with the parsed instant. -/
def utcUnmarshalText (Parse : Str → Int × Option Cause) : Unmarshaler :=
  fun text old =>
    match (Parse text).2 with
    | some err => (old, some err)
    | none => (.int (Parse text).1, none)

/-- A stand-in for `utc.Parse` that knows the one timestamp of `parser_test.go` and rejects
every other text. -/
def testParse (s : Str) : Int × Option Cause :=
  if s = "2027-12-20T14:00:00Z".toList then (1829311200000000000, none)
  else (0, some (.custom "parsing time: cannot parse".toList))

/-- A stand-in for `strconv.ParseFloat` that knows the one number of `parser_test.go`. -/
def testFloat : FloatLib where
  ParseFloat := fun s =>
    if s = "3.141592653589793".toList then (0x400921FB54442D18, none)
    else (0, some ⟨"ParseFloat".toList, s, .ErrSyntax⟩)
  toFloat32 := fun bits => bits

/-- Go type `utc.UTC`: a named `int64` whose pointer implements `encoding.TextUnmarshaler`. -/
def tyUTC : Ty := .base .Int64 true (some (utcUnmarshalText testParse))

/-- The struct `dummyParseQuery` of `parser_test.go:12-20`, zero-valued. -/
def dummyParseQuery : List StructField :=
  [ ⟨some "min".toList, tyUTC, .int 0⟩,
    ⟨some "max".toList, .ptr tyUTC, .nil⟩,
    ⟨some "limit".toList, .base .Uint true none, .uint 0⟩,
    ⟨some "continuation".toList, .base .String true none, .str []⟩,
    ⟨some "q".toList, .ptr (.base .String true none), .nil⟩,
    ⟨some "b".toList, .base .Bool true none, .bool false⟩,
    ⟨some "f".toList, .base .Float64 true none, .float 0⟩ ]

/-- The struct `dummyParseQueryRequired` of `parser_test.go:71-74`, zero-valued. -/
def dummyParseQueryRequired : List StructField :=
  [ ⟨some "min,required".toList, tyUTC, .int 0⟩,
    ⟨some "max".toList, .ptr tyUTC, .nil⟩ ]

/-- A struct with the single field `N int32` tagged `qs:"n"`, zero-valued. -/
def int32Record : List StructField :=
  [ ⟨some "n".toList, .base .Int32 true none, .int 0⟩ ]

/-- The `UnmarshalText` that the unnamed struct type `struct{ utc.UTC }` gets by promotion from
its embedded field; the payload of the struct is the embedded instant. -/
def embeddedUnmarshalText : Unmarshaler :=
  fun text old =>
    match (testParse text).2 with
    | some err => (old, some err)
    | none => (.other (testParse text).1.toNat, none)

/-- A struct with the single field `T struct{ utc.UTC }` tagged `qs:"t"`, zero-valued: the
field's type is an unnamed struct type whose pointer implements `encoding.TextUnmarshaler`. -/
def embeddedRecord : List StructField :=
  [ ⟨some "t".toList, .base .Struct false (some embeddedUnmarshalText), .other 0⟩ ]

/-- A struct with the single string field `S` tagged `qs:",required"`, zero-valued: the text
before the first comma of the tag is empty. -/
def emptyKeyRecord : List StructField :=
  [ ⟨some ",required".toList, .base .String true none, .str []⟩ ]

/-- A struct with two string fields that both declare the key `k`, zero-valued. -/
def duplicateKeyRecord : List StructField :=
  [ ⟨some "k".toList, .base .String true none, .str []⟩,
    ⟨some "k".toList, .base .String true none, .str []⟩ ]

/-- The kinds that the `switch` of `ParseQuery` has a case for (`parser.go:76-103`). -/
def supportedKinds : List Kind :=
  [.Int, .Int32, .Int64, .Uint, .Uint32, .Uint64, .Float32, .Float64, .Bool, .String]

/-- The six spellings `strconv.ParseBool` reads as true. -/
def trueSpellings : List Str :=
  ["1".toList, "t".toList, "T".toList, "TRUE".toList, "true".toList, "True".toList]

/-- The six spellings `strconv.ParseBool` reads as false. -/
def falseSpellings : List Str :=
  ["0".toList, "f".toList, "F".toList, "FALSE".toList, "false".toList, "False".toList]

/-! ## `strings.Split`, `strings.TrimSpace` and `ParseContentRange` (`range.go`) -/

/-- Go `strings.Split(s, string(sep))` with a one-character separator: the pieces of `s`
between the occurrences of `sep`, in order; there is always at least one piece. -/
def stringsSplit (sep : Char) : Str → List Str
  | [] => [[]]
  | c :: cs =>
    if c = sep then [] :: stringsSplit sep cs
    else (c :: (stringsSplit sep cs).headD []) :: (stringsSplit sep cs).tail

/-- Go `unicode.IsSpace`: the Unicode White Space property. -/
def isSpace (c : Char) : Bool :=
  decide (c.toNat ∈ [0x09, 0x0A, 0x0B, 0x0C, 0x0D, 0x20, 0x85, 0xA0, 0x1680, 0x2028, 0x2029,
    0x202F, 0x205F, 0x3000]) || (decide (0x2000 ≤ c.toNat) && decide (c.toNat ≤ 0x200A))

/-- Go `strings.TrimSpace`: the text without its leading and trailing white space. -/
def TrimSpace (s : Str) : Str :=
  ((s.dropWhile isSpace).reverse.dropWhile isSpace).reverse

/-- Go `HTTPRange` (`range.go:9-11`); the members are `int64`. -/
structure HTTPRange where
  Start : Int
  End : Int
  Size : Int
  deriving DecidableEq, Repr

/-- The two error values of `range.go:13-17`. -/
inductive RangeError
  | ErrInvalidFormat
  | ErrInvalidRange
  deriving DecidableEq, Repr

/-- Go `ParseContentRange` (`range.go:25-80`): the returned `*HTTPRange` (`none` for nil) and
the returned error. -/
def ParseContentRange (s : Str) : Option HTTPRange × Option RangeError :=
  if s = [] then (none, some .ErrInvalidFormat)
  else if ¬ "bytes ".toList.isPrefixOf s then (none, some .ErrInvalidFormat)
  else
    match stringsSplit '/' (s.drop "bytes ".toList.length) with
    | [ran, rawSize] =>
      let size := TrimSpace rawSize
      if (ParseInt size).2 ≠ none then (none, some .ErrInvalidFormat)
      else
        match stringsSplit '-' ran with
        | [rawStart, rawEnd] =>
          let start := TrimSpace rawStart
          let stop := TrimSpace rawEnd
          if (ParseInt start).2 ≠ none then (none, some .ErrInvalidFormat)
          else if (ParseInt stop).2 ≠ none then (none, some .ErrInvalidFormat)
          else if (ParseInt start).1 > (ParseInt stop).1 then (none, some .ErrInvalidRange)
          else if (ParseInt stop).1 > (ParseInt size).1 then (none, some .ErrInvalidRange)
          else (some ⟨(ParseInt start).1, (ParseInt stop).1, (ParseInt size).1⟩, none)
        | _ => (none, some .ErrInvalidFormat)
    | _ => (none, some .ErrInvalidFormat)

/-- The header text `bytes <s>-<e>/<z>` with the three numbers in base 10. -/
def contentRangeText (s e z : Int) : Str :=
  "bytes ".toList ++ FormatInt s ++ '-' :: FormatInt e ++ '/' :: FormatInt z

/-- A struct with the single field `N uint32` tagged `qs:"n"`, zero-valued. -/
def uint32Record : List StructField :=
  [ ⟨some "n".toList, .base .Uint32 true none, .uint 0⟩ ]

end Httputil

/-! # Package `utc` (`src/utc/utc.go`)

`UTC` and `time.Duration` are `int64`: a value is an integer, and every arithmetic operation of
the source is followed by the two's-complement wrap to 64 bits.  Go's `%` and `/` truncate
toward zero (`Int.tmod`, `Int.tdiv`), and dividing by zero panics (`none`). -/

namespace Utc

open Httputil

/-- Go `math.MinInt64`. -/
def MinInt64 : Int := -2 ^ 63

/-- Go `math.MaxInt64`. -/
def MaxInt64 : Int := 2 ^ 63 - 1

/-- The integer is a value of Go's `int64`. -/
def isInt64 (x : Int) : Prop := MinInt64 ≤ x ∧ x ≤ MaxInt64

instance (x : Int) : Decidable (isInt64 x) := by
  unfold isInt64
  infer_instance

/-- Go `type UTC int64`: nanoseconds elapsed since January 1, 1970 UTC. -/
abbrev UTC := Int

/-- Go `time.Duration`, an `int64` count of nanoseconds. -/
abbrev Duration := Int

/-- Go `const day = time.Hour * 24` (`utc.go:13`). -/
def day : Duration := 3600000000000 * 24

/-- Go `abs` (`utc.go:206-211`). -/
def abs (t : UTC) : UTC :=
  if t < 0 then wrapInt 64 (t * -1) else t

/-- Go `UTC.Floor` (`utc.go:141-143`). -/
def UTC.Floor (t : UTC) (prec : Duration) : Option UTC :=
  if prec = 0 then none
  else some (wrapInt 64 (t - Int.tmod (abs t) prec))

/-- Go `UTC.Ceil` (`utc.go:146-152`). -/
def UTC.Ceil (t : UTC) (prec : Duration) : Option UTC :=
  if prec = 0 then none
  else
    let rem := Int.tmod (abs t) prec
    if rem > 0 then some (wrapInt 64 (wrapInt 64 (t - rem) + prec))
    else some (wrapInt 64 (t - rem))

/-- Go `UTC.BeginningOfDay` (`utc.go:131-133`). -/
def UTC.BeginningOfDay (t : UTC) : Option UTC :=
  UTC.Floor t day

/-- Go `UTC.EndOfDay` (`utc.go:136-138`). -/
def UTC.EndOfDay (t : UTC) : Option UTC :=
  (UTC.Floor t day).map (fun f => wrapInt 64 (f + (day - 1)))

/-- Go `UTC.Distance` (`utc.go:126-128`). -/
def UTC.Distance (t u : UTC) : Duration :=
  wrapInt 64 (t - u)

/-- Go `Max` (`utc.go:36-47`). -/
def Max (l : List UTC) : UTC :=
  if l.length = 0 then 0
  else l.foldl (fun max t => if t > max then t else max) MinInt64

/-- Go `Min` (`utc.go:50-61`). -/
def Min (l : List UTC) : UTC :=
  if l.length = 0 then 0
  else l.foldl (fun min t => if t < min then t else min) MaxInt64

/-- Go `UTC.GobEncode` (`utc.go:155-158`): the bytes and the error. -/
def UTC.GobEncode (t : UTC) : Str × Option NumError :=
  (FormatInt t, none)

/-- Go `(*UTC).GobDecode` (`utc.go:161-170`): the receiver afterwards and the error. -/
def UTC.GobDecode (t : UTC) (data : Str) : UTC × Option NumError :=
  match (ParseInt data).2 with
  | some err => (t, some err)
  | none => ((ParseInt data).1, none)

/-- Go `*time.Location`, as far as the package is concerned. -/
inductive Location
  | UTC
  | Local
  deriving DecidableEq, Repr

/-- Go `time.Time`: an instant as whole seconds since the Unix epoch plus a nanosecond offset
in `[0, 999999999]`, shown in a location. -/
structure Time where
  sec : Int
  nsec : Int
  loc : Location
  deriving DecidableEq, Repr

/-- Go `Time.UTC`: the same instant with the location set to UTC. -/
def Time.UTC (t : Time) : Time :=
  { t with loc := .UTC }

/-- Go `Time.UnixNano`: `unixSec*1e9 + nsec` in `int64` arithmetic. -/
def Time.UnixNano (t : Time) : Int :=
  wrapInt 64 (wrapInt 64 (t.sec * 1000000000) + t.nsec)

/-- Go `time.Unix(sec, nsec)`: `nsec` outside `[0, 999999999]` is carried into `sec`. -/
def Unix (sec nsec : Int) : Time :=
  if nsec < 0 ∨ nsec ≥ 1000000000 then
    let n := Int.tdiv nsec 1000000000
    let sec1 := wrapInt 64 (sec + n)
    let nsec1 := wrapInt 64 (nsec - wrapInt 64 (n * 1000000000))
    if nsec1 < 0 then ⟨wrapInt 64 (sec1 - 1), wrapInt 64 (nsec1 + 1000000000), .Local⟩
    else ⟨sec1, nsec1, .Local⟩
  else ⟨sec, nsec, .Local⟩

/-- Go `Convert` (`utc.go:21-23`). -/
def Convert (t : Time) : UTC :=
  t.UTC.UnixNano

/-- Go `UTC.Time` (`utc.go:94-96`). -/
def UTC.Time (t : UTC) : Time :=
  (Unix 0 t).UTC

/-- The instant 1969-12-31T18:00:00Z, six hours before the epoch. -/
def eveningBeforeEpoch : UTC := -21600000000000

/-- Go `UTC.Add` (`utc.go:114-116`). -/
def UTC.Add (t : UTC) (d : Duration) : UTC :=
  wrapInt 64 (t + d)

/-- Go `UTC.Sub` (`utc.go:119-121`). -/
def UTC.Sub (t : UTC) (d : Duration) : UTC :=
  wrapInt 64 (t - d)

/-! ## Locale-driven formatting (`src/utc/formatter.go`) -/

/-- Go `locales.Translator`, identified by the locale of the package whose `New()` built it
(the text its `Locale()` returns): `it_CH.New()` is the translator of `it_CH`. -/
structure Translator where
  Locale : Str
  deriving DecidableEq, Repr

/-- Go `localeMapper` (`formatter.go:20-33`), entry by entry. -/
def localeMapper : List (Str × Translator) :=
  [ ("de".toList, ⟨"de".toList⟩),
    ("de-CH".toList, ⟨"de_CH".toList⟩),
    ("de-DE".toList, ⟨"de_DE".toList⟩),
    ("en".toList, ⟨"en".toList⟩),
    ("en-GB".toList, ⟨"en_GB".toList⟩),
    ("en-US".toList, ⟨"en_US".toList⟩),
    ("fr".toList, ⟨"fr".toList⟩),
    ("fr-CH".toList, ⟨"fr_CH".toList⟩),
    ("fr-FR".toList, ⟨"fr_FR".toList⟩),
    ("it".toList, ⟨"it".toList⟩),
    ("it-CH".toList, ⟨"it_IT".toList⟩),
    ("it-IT".toList, ⟨"it_CH".toList⟩) ]

/-- Go `var fallback = en.New()` (`formatter.go:35`). -/
def fallback : Translator := ⟨"en".toList⟩

/-- The formatting methods of `locales.Translator`, which the package only calls. -/
structure Locales where
  FmtDateLong : Translator → Time → Str
  FmtDateShort : Translator → Time → Str
  FmtTimeShort : Translator → Time → Str

/-- Go `FormatDateLong` (`formatter.go:37-42`); `lang` is the text `lang.String()`. -/
def FormatDateLong (lib : Locales) (u : UTC) (lang : Str) : Str :=
  match localeMapper.lookup lang with
  | some l => lib.FmtDateLong l (UTC.Time u)
  | none => lib.FmtDateLong fallback (UTC.Time u)

/-- Go `FormatDateShort` (`formatter.go:44-49`). -/
def FormatDateShort (lib : Locales) (u : UTC) (lang : Str) : Str :=
  match localeMapper.lookup lang with
  | some l => lib.FmtDateShort l (UTC.Time u)
  | none => lib.FmtDateShort fallback (UTC.Time u)

/-- Go `FormatTimeShort` (`formatter.go:51-56`). -/
def FormatTimeShort (lib : Locales) (u : UTC) (lang : Str) : Str :=
  match localeMapper.lookup lang with
  | some l => lib.FmtTimeShort l (UTC.Time u)
  | none => lib.FmtTimeShort fallback (UTC.Time u)

/-- The locale a language-tag key names: `ll` for the key `ll`, `ll_RR` for the key `ll-RR`. -/
def localeOfKey (key : Str) : Str :=
  key.map (fun c => if c = '-' then '_' else c)

end Utc

namespace Httputil

/-! ## Facts about tags -/

theorem indexFrom_not_mem (sep : Char) (s : Str) (i : Nat) (h : sep ∉ s) :
    indexFrom sep s i = -1 := by
  induction s generalizing i with
  | nil => rfl
  | cons c cs ih =>
    have hc : c ≠ sep := fun hc => h (by simp [hc])
    have hcs : sep ∉ cs := fun hm => h (List.mem_cons_of_mem _ hm)
    simp [indexFrom, hc, ih (i + 1) hcs]

/-- When the separator occurs, `indexFrom` returns the position of its first occurrence. -/
theorem indexFrom_mem (sep : Char) (s : Str) (i : Nat) (h : sep ∈ s) :
    ∃ j : Nat, indexFrom sep s i = ((i + j : Nat) : Int) ∧
      s.take j ++ sep :: s.drop (j + 1) = s ∧ sep ∉ s.take j := by
  induction s generalizing i with
  | nil => simp at h
  | cons c cs ih =>
    by_cases hc : c = sep
    · exact ⟨0, by simp [indexFrom, hc], by simp [hc], by simp⟩
    · have hcs : sep ∈ cs := by
        rcases List.mem_cons.mp h with h1 | h1
        · exact absurd h1.symm hc
        · exact h1
      obtain ⟨j, h1, h2, h3⟩ := ih (i + 1) hcs
      refine ⟨j + 1, ?_, ?_, ?_⟩
      · simp only [indexFrom, hc, if_false, h1]
        congr 1
        omega
      · simp only [List.take_succ_cons, List.drop_succ_cons, List.cons_append, h2]
      · simp only [List.take_succ_cons, List.mem_cons, not_or]
        exact ⟨fun e => hc e.symm, h3⟩

theorem stringsSplit_not_mem (sep : Char) (s : Str) (h : sep ∉ s) :
    stringsSplit sep s = [s] := by
  induction s with
  | nil => rfl
  | cons c cs ih =>
    have hc : c ≠ sep := fun hc => h (by simp [hc])
    have hcs : sep ∉ cs := fun hm => h (List.mem_cons_of_mem _ hm)
    simp [stringsSplit, hc, ih hcs]

theorem stringsSplit_append (sep : Char) (pre rest : Str) (h : sep ∉ pre) :
    stringsSplit sep (pre ++ sep :: rest) = pre :: stringsSplit sep rest := by
  induction pre with
  | nil => simp [stringsSplit]
  | cons c cs ih =>
    have hc : c ≠ sep := fun hc => h (by simp [hc])
    have hcs : sep ∉ cs := fun hm => h (List.mem_cons_of_mem _ hm)
    simp [stringsSplit, hc, ih hcs]

theorem containsLoop_nil (n : Str) (fuel : Nat) : containsLoop n fuel [] = false := by
  cases fuel <;> simp [containsLoop]

/-- With fuel above the length of the text, the loop of `Contains` finds a non-empty name
exactly when the name is one of the comma-separated pieces. -/
theorem containsLoop_iff (n : Str) (hn : n ≠ []) :
    ∀ (fuel : Nat) (s : Str), s.length < fuel →
      (containsLoop n fuel s = true ↔ n ∈ stringsSplit ',' s) := by
  intro fuel
  induction fuel with
  | zero => intro s h; omega
  | succ fuel ih =>
    intro s hlen
    by_cases hs : s = []
    · subst hs
      simp [containsLoop, stringsSplit, hn]
    · by_cases hc : ',' ∈ s
      · obtain ⟨j, h1, h2, h3⟩ := indexFrom_mem ',' s 0 hc
        have hidx : stringsIndex s ',' = (j : Int) := by
          rw [stringsIndex, h1]
          simp
        have hge : (j : Int) ≥ 0 := by omega
        have hj : ((j : Int) + 1).toNat = j + 1 := by omega
        have hsplit : stringsSplit ',' s = s.take j :: stringsSplit ',' (s.drop (j + 1)) := by
          conv_lhs => rw [← h2]
          exact stringsSplit_append ',' _ _ h3
        have hpos : 0 < s.length := List.length_pos.mpr hs
        have hdrop : (s.drop (j + 1)).length < fuel := by
          rw [List.length_drop]
          omega
        have hih := ih (s.drop (j + 1)) hdrop
        simp only [containsLoop, hs, if_false, hidx, hge, if_true, sliceTo, sliceFrom,
          Int.toNat_ofNat, hj, hsplit, List.mem_cons]
        by_cases hcur : List.take j s = n
        · simp [hcur]
        · have hcur2 : ¬ n = List.take j s := fun e => hcur e.symm
          simp only [hcur, if_false, hcur2, false_or]
          exact hih
      · have hidx : stringsIndex s ',' = -1 := indexFrom_not_mem ',' s 0 hc
        have hlt : ¬ ((-1 : Int) ≥ 0) := by omega
        simp only [containsLoop, hs, if_false, hidx, hlt, stringsSplit_not_mem ',' s hc,
          List.mem_singleton, containsLoop_nil]
        by_cases hcur : s = n
        · simp [hcur]
        · have hcur2 : ¬ n = s := fun e => hcur e.symm
          simp [hcur, hcur2]

/-! ## Facts about the loop -/

theorem Values.Get_eq_nil (q : Values) (key : Str)
    (h : q.lookup key = none ∨ ∃ rest, q.lookup key = some ([] :: rest)) :
    q.Get key = [] := by
  rcases h with h | ⟨rest, h⟩ <;> simp [Values.Get, h]

theorem Values.Get_of_hasNoValue (q : Values) (key : Str) (h : q.hasNoValue key) :
    q.Get key = [] := by
  unfold Values.hasNoValue at h
  unfold Values.Get
  cases hl : q.lookup key with
  | none => rfl
  | some vs =>
    cases vs with
    | nil => rfl
    | cons v rest =>
      rw [hl] at h
      exact h v (by simp)

theorem parseField_untagged (fl : FloatLib) (q : Values) (f : StructField)
    (h : f.tag = none) : parseField fl q f = (f, none) := by
  simp [parseField, h]

theorem parseField_no_value (fl : FloatLib) (q : Values) (f : StructField) (raw : Str)
    (htag : f.tag = some raw) (hval : q.Get (parseTag raw).1 = []) :
    parseField fl q f =
      (f, if (parseTag raw).2.Contains "required".toList = true then
            some (.Bad ⟨(parseTag raw).1, "Missing query string".toList⟩) else none) := by
  simp only [parseField, htag, hval, if_true]
  split <;> rfl

theorem getLeaf_refChain (n : Nat) (k : Kind) (named : Bool) (um : Option Unmarshaler)
    (x : Val) : (ptrChain n (.base k named um)).getLeaf (refChain n x) = x := by
  induction n with
  | zero => rfl
  | succ n ih => simpa [ptrChain, refChain, Ty.getLeaf] using ih

theorem setLeaf_refChain (n : Nat) (k : Kind) (named : Bool) (um : Option Unmarshaler)
    (x y : Val) : (ptrChain n (.base k named um)).setLeaf (refChain n x) y = refChain n y := by
  induction n with
  | zero => rfl
  | succ n ih => simpa [ptrChain, refChain, Ty.setLeaf] using ih

theorem indirectLoop_ptr_none (elem : Ty) (v : Val) (h : elem.ptrUnmarshaler = none) :
    indirectLoop (.ptr elem) v =
      (.ref (indirectLoop elem (v.pointeeOr elem.zero)).1,
        (indirectLoop elem (v.pointeeOr elem.zero)).2) := by
  simp [indirectLoop, h]

theorem indirectLoop_ptr_some (elem : Ty) (v : Val) (u : Unmarshaler)
    (h : elem.ptrUnmarshaler = some u) :
    indirectLoop (.ptr elem) v = (.ref (v.pointeeOr elem.zero), .custom u) := by
  simp [indirectLoop, h]

theorem ptrUnmarshaler_ptrChain_none (n : Nat) (k : Kind) (named : Bool) :
    (ptrChain n (.base k named none)).ptrUnmarshaler = none := by
  cases n <;> rfl

/-- The loop of `indirect` on a chain of pointers around a type without a decoder: every layer
is allocated and the leaf is returned. -/
theorem indirectLoop_prim (n : Nat) (k : Kind) (named : Bool) (v : Val) :
    indirectLoop (ptrChain n (.base k named none)) v =
      (refChain n ((ptrChain n (.base k named none)).getLeaf v), .leaf k) := by
  induction n generalizing v with
  | zero => rfl
  | succ n ih =>
    show indirectLoop (.ptr (ptrChain n (.base k named none))) v = _
    rw [indirectLoop_ptr_none _ _ (ptrUnmarshaler_ptrChain_none n k named), ih]
    rfl

/-- The loop of `indirect` on a chain of at least one pointer around a type whose pointer
implements `TextUnmarshaler`: every layer is allocated and the decoder is returned. -/
theorem indirectLoop_custom (n : Nat) (k : Kind) (named : Bool) (u : Unmarshaler) (v : Val) :
    indirectLoop (ptrChain (n + 1) (.base k named (some u))) v =
      (refChain (n + 1) ((ptrChain (n + 1) (.base k named (some u))).getLeaf v),
        .custom u) := by
  induction n generalizing v with
  | zero =>
    show indirectLoop (.ptr (.base k named (some u))) v = _
    rw [indirectLoop_ptr_some (.base k named (some u)) v u rfl]
    rfl
  | succ n ih =>
    show indirectLoop (.ptr (ptrChain (n + 1) (.base k named (some u)))) v = _
    rw [indirectLoop_ptr_none (ptrChain (n + 1) (.base k named (some u))) v rfl, ih]
    rfl

theorem indirect_prim (n : Nat) (k : Kind) (named : Bool) (v : Val) :
    indirect (ptrChain n (.base k named none)) v =
      (refChain n ((ptrChain n (.base k named none)).getLeaf v), .leaf k) := by
  cases n with
  | zero => cases named <;> rfl
  | succ n =>
    have h := indirectLoop_prim (n + 1) k named v
    simpa [indirect, ptrChain] using h

/-- A decoder is found exactly when the field's type is named or sits behind a pointer. -/
theorem indirect_custom (n : Nat) (k : Kind) (named : Bool) (u : Unmarshaler) (v : Val)
    (h : 1 ≤ n ∨ named = true) :
    indirect (ptrChain n (.base k named (some u))) v =
      (refChain n ((ptrChain n (.base k named (some u))).getLeaf v), .custom u) := by
  cases n with
  | zero =>
    have hn : named = true := by
      rcases h with h | h
      · omega
      · exact h
    subst hn
    rfl
  | succ n =>
    have h := indirectLoop_custom n k named u v
    simpa [indirect, ptrChain] using h

/-- The loop body on a field with a value whose type is a pointer chain around a type without
a decoder: the layers are allocated and the leaf is coerced. -/
theorem parseField_leaf (fl : FloatLib) (q : Values) (f : StructField) (raw : Str)
    (n : Nat) (k : Kind) (named : Bool)
    (htag : f.tag = some raw) (hval : q.Get (parseTag raw).1 ≠ [])
    (hty : f.ty = ptrChain n (.base k named none)) :
    parseField fl q f =
      (⟨f.tag, f.ty, refChain n (coerce fl k (q.Get (parseTag raw).1) (f.ty.getLeaf f.val)).1⟩,
        (coerce fl k (q.Get (parseTag raw).1) (f.ty.getLeaf f.val)).2) := by
  simp only [parseField, htag, hval, if_false]
  rw [hty, indirect_prim]
  simp only [getLeaf_refChain, setLeaf_refChain]

/-- The loop body on a field with a value whose type exposes a decoder: the layers are
allocated and the decoder alone writes the content. -/
theorem parseField_custom (fl : FloatLib) (q : Values) (f : StructField) (raw : Str)
    (n : Nat) (k : Kind) (named : Bool) (u : Unmarshaler)
    (htag : f.tag = some raw) (hval : q.Get (parseTag raw).1 ≠ [])
    (hty : f.ty = ptrChain n (.base k named (some u))) (hn : 1 ≤ n ∨ named = true) :
    parseField fl q f =
      (⟨f.tag, f.ty, refChain n (u (q.Get (parseTag raw).1) (f.ty.getLeaf f.val)).1⟩,
        (u (q.Get (parseTag raw).1) (f.ty.getLeaf f.val)).2.map Err.WithBad) := by
  simp only [parseField, htag, hval, if_false]
  rw [hty, indirect_custom n k named u f.val hn]
  simp only [getLeaf_refChain, setLeaf_refChain]
  cases (u (q.Get (parseTag raw).1)
    ((ptrChain n (Ty.base k named (some u))).getLeaf f.val)).2 <;> rfl

/-- The loop body on a field with a value whose type is an unnamed non-pointer type: the address
of the field is not taken, so a decoder on its pointer is not found and the `switch` on the
kind decides. -/
theorem parseField_unnamed (fl : FloatLib) (q : Values) (f : StructField) (raw : Str)
    (k : Kind) (um : Option Unmarshaler)
    (htag : f.tag = some raw) (hval : q.Get (parseTag raw).1 ≠ [])
    (hty : f.ty = .base k false um) :
    parseField fl q f =
      (⟨f.tag, f.ty, (coerce fl k (q.Get (parseTag raw).1) f.val).1⟩,
        (coerce fl k (q.Get (parseTag raw).1) f.val).2) := by
  simp only [parseField, htag, hval, if_false]
  rw [hty]
  rfl

/-- Every field type is a chain of pointer layers around a type that is not a pointer. -/
theorem Ty.eq_ptrChain (t : Ty) : ∃ n k named um, t = ptrChain n (.base k named um) := by
  induction t with
  | base k named um => exact ⟨0, k, named, um, rfl⟩
  | ptr elem ih =>
    obtain ⟨n, k, named, um, h⟩ := ih
    exact ⟨n + 1, k, named, um, by rw [h]; rfl⟩

theorem parseFields_cons_err (fl : FloatLib) (q : Values) (f : StructField)
    (post : List StructField) (e : Err) (h : (parseField fl q f).2 = some e) :
    parseFields fl q (f :: post) = ((parseField fl q f).1 :: post, some e) := by
  simp [parseFields, h]

theorem parseFields_cons_ok (fl : FloatLib) (q : Values) (f : StructField)
    (post : List StructField) (h : (parseField fl q f).2 = none) :
    parseFields fl q (f :: post) =
      ((parseField fl q f).1 :: (parseFields fl q post).1, (parseFields fl q post).2) := by
  simp [parseFields, h]

theorem parseFields_append (fl : FloatLib) (q : Values) (pre rest : List StructField)
    (hpre : ∀ g ∈ pre, (parseField fl q g).2 = none) :
    parseFields fl q (pre ++ rest) =
      (pre.map (fun g => (parseField fl q g).1) ++ (parseFields fl q rest).1,
        (parseFields fl q rest).2) := by
  induction pre with
  | nil => simp
  | cons g pre ih =>
    have hg : (parseField fl q g).2 = none := hpre g (List.mem_cons_self _ _)
    have ih2 := ih (fun x hx => hpre x (List.mem_cons_of_mem _ hx))
    rw [List.cons_append, parseFields_cons_ok fl q g _ hg, ih2]
    simp

theorem parseFields_length (fl : FloatLib) (q : Values) (fields : List StructField) :
    (parseFields fl q fields).1.length = fields.length := by
  induction fields with
  | nil => rfl
  | cons f rest ih =>
    cases h : (parseField fl q f).2 with
    | none => simp [parseFields_cons_ok fl q f rest h, ih]
    | some e => simp [parseFields_cons_err fl q f rest e h]

/-- When no earlier field fails, the loop reaches a field and leaves it as its body does. -/
theorem parseFields_at (fl : FloatLib) (q : Values) (pre post : List StructField)
    (f : StructField) (hpre : ∀ g ∈ pre, (parseField fl q g).2 = none) :
    ∃ post1 e, parseFields fl q (pre ++ f :: post) =
        (pre.map (fun g => (parseField fl q g).1) ++ (parseField fl q f).1 :: post1, e) ∧
      post1.length = post.length ∧
      (∀ c, (parseField fl q f).2 = some c → e = some c ∧ post1 = post) := by
  rw [parseFields_append fl q pre _ hpre]
  cases h : (parseField fl q f).2 with
  | none =>
    refine ⟨(parseFields fl q post).1, (parseFields fl q post).2, ?_,
      parseFields_length fl q post, ?_⟩
    · rw [parseFields_cons_ok fl q f post h]
    · intro c hc
      cases hc
  | some e =>
    refine ⟨post, some e, ?_, rfl, ?_⟩
    · rw [parseFields_cons_err fl q f post e h]
    · intro c hc
      cases hc
      exact ⟨rfl, rfl⟩

/-- A field that its loop body leaves alone without error does not influence the loop: the
outcome is the one of the record without it, with the field put back at its position. -/
theorem parseFields_skip (fl : FloatLib) (q : Values) (pre post : List StructField)
    (f : StructField) (hf : parseField fl q f = (f, none)) :
    parseFields fl q (pre ++ f :: post) =
      ((parseFields fl q (pre ++ post)).1.take pre.length ++ f ::
          (parseFields fl q (pre ++ post)).1.drop pre.length,
        (parseFields fl q (pre ++ post)).2) := by
  induction pre with
  | nil =>
    rw [List.nil_append, parseFields_cons_ok fl q f post (by rw [hf]), hf]
    simp
  | cons a pre ih =>
    cases h : (parseField fl q a).2 with
    | none =>
      rw [List.cons_append, List.cons_append, parseFields_cons_ok fl q a _ h,
        parseFields_cons_ok fl q a _ h, ih]
      simp
    | some e =>
      rw [List.cons_append, List.cons_append, parseFields_cons_err fl q a _ e h,
        parseFields_cons_err fl q a _ e h]
      simp

/-- Wherever the loop stops, the field at a given position is either as it was or as its own
loop body left it, and the positions do not move. -/
theorem parseFields_split (fl : FloatLib) (q : Values) (f : StructField)
    (post : List StructField) (pre : List StructField) :
    ∃ pre1 post1 g, (parseFields fl q (pre ++ f :: post)).1 = pre1 ++ g :: post1 ∧
      pre1.length = pre.length ∧ (g = f ∨ g = (parseField fl q f).1) := by
  induction pre with
  | nil =>
    cases h : (parseField fl q f).2 with
    | none =>
      exact ⟨[], (parseFields fl q post).1, (parseField fl q f).1,
        by simp [parseFields_cons_ok fl q f post h], rfl, Or.inr rfl⟩
    | some e =>
      exact ⟨[], post, (parseField fl q f).1,
        by simp [parseFields_cons_err fl q f post e h], rfl, Or.inr rfl⟩
  | cons a pre ih =>
    obtain ⟨pre1, post1, g, h1, h2, h3⟩ := ih
    cases h : (parseField fl q a).2 with
    | none =>
      refine ⟨(parseField fl q a).1 :: pre1, post1, g, ?_, by simp [h2], h3⟩
      rw [List.cons_append, parseFields_cons_ok fl q a _ h]
      simp [h1]
    | some e =>
      refine ⟨(parseField fl q a).1 :: pre, post, f, ?_, by simp, Or.inl rfl⟩
      rw [List.cons_append, parseFields_cons_err fl q a _ e h]
      simp

theorem ParseQuery_struct (fl : FloatLib) (q : Values) (name : Str)
    (fields : List StructField) :
    ParseQuery fl q (.pointerToStruct name fields) =
      .returned (.pointerToStruct name (parseFields fl q fields).1)
        (parseFields fl q fields).2 := by
  simp [ParseQuery, Target.isPtr, Target.IsNil]

theorem parseFields_mid (fl : FloatLib) (q : Values) (pre post : List StructField)
    (f g : StructField)
    (hpre : ∀ x ∈ pre, (parseField fl q x).2 = none)
    (hpost : ∀ x ∈ post, (parseField fl q x).2 = none)
    (hf : parseField fl q f = (g, none)) :
    parseFields fl q (pre ++ f :: post) =
      (pre.map (fun x => (parseField fl q x).1) ++ g ::
        post.map (fun x => (parseField fl q x).1), none) := by
  have hp := parseFields_append fl q post [] hpost
  simp only [List.append_nil, parseFields] at hp
  rw [parseFields_append fl q pre _ hpre, parseFields_cons_ok fl q f post (by rw [hf]), hf, hp]

theorem wrapInt_of_range (v : Int) (hlo : -2 ^ 63 ≤ v) (hhi : v < 2 ^ 63) :
    wrapInt 64 v = v := by
  unfold wrapInt
  norm_num at hlo hhi ⊢
  omega

theorem coerce_bool_literal (fl : FloatLib) (b : Bool) (cur : Val) :
    coerce fl .Bool (if b then "true".toList else "false".toList) cur = (.bool b, none) := by
  cases b <;> rfl

theorem coerce_unsupported (fl : FloatLib) (k : Kind) (qVal : Str) (cur : Val)
    (hk : k ∉ supportedKinds) : coerce fl k qVal cur = (cur, none) := by
  cases k <;> first
    | rfl
    | exact absurd (by decide) hk

/-- A failing coercion leaves the leaf as it was. -/
theorem coerce_err_unchanged (fl : FloatLib) (k : Kind) (qVal : Str) (cur : Val) (e : Err)
    (h : (coerce fl k qVal cur).2 = some e) : (coerce fl k qVal cur).1 = cur := by
  cases k <;> simp only [coerce] at h ⊢ <;> first
    | (split at h <;> first | rfl | cases h)
    | cases h

theorem getLeaf_nil (n : Nat) (k : Kind) (named : Bool) (um : Option Unmarshaler) :
    (ptrChain (n + 1) (.base k named um)).getLeaf .nil = k.zero := by
  induction n with
  | zero => rfl
  | succ n ih => exact ih

theorem ParseBool_true (s : Str) (h : s ∈ trueSpellings) : ParseBool s = (true, none) := by
  simp only [trueSpellings] at h
  simp only [ParseBool, h, if_true]

theorem ParseBool_false (s : Str) (h : s ∈ falseSpellings) : ParseBool s = (false, none) := by
  simp only [trueSpellings, falseSpellings, List.mem_cons, List.mem_singleton,
    List.not_mem_nil, or_false] at h
  rcases h with rfl | rfl | rfl | rfl | rfl | rfl <;> rfl

theorem ParseBool_other (s : Str) (ht : s ∉ trueSpellings) (hf : s ∉ falseSpellings) :
    ParseBool s = (false, some ⟨"ParseBool".toList, s, .ErrSyntax⟩) := by
  simp only [trueSpellings] at ht
  simp only [falseSpellings] at hf
  simp only [ParseBool, ht, hf, if_false]

/-- The loop body reads the input only through `Values.Get`. -/
theorem parseField_congr (fl : FloatLib) (q q2 : Values) (f : StructField)
    (h : ∀ k, q.Get k = q2.Get k) : parseField fl q f = parseField fl q2 f := by
  cases htag : f.tag with
  | none => simp [parseField, htag]
  | some raw => simp only [parseField, htag, h]

theorem parseFields_congr (fl : FloatLib) (q q2 : Values) (fields : List StructField)
    (h : ∀ k, q.Get k = q2.Get k) : parseFields fl q fields = parseFields fl q2 fields := by
  induction fields with
  | nil => rfl
  | cons f rest ih => simp only [parseFields, parseField_congr fl q q2 f h, ih]

theorem ParseQuery_congr (fl : FloatLib) (q q2 : Values) (t : Target)
    (h : ∀ k, q.Get k = q2.Get k) : ParseQuery fl q t = ParseQuery fl q2 t := by
  cases t <;> simp only [ParseQuery, parseFields_congr fl q q2 _ h]

theorem lookup_filter_ne (key k : Str) (q : Values) :
    List.lookup k (q.filter (fun p => p.1 != key)) =
      if k = key then none else List.lookup k q := by
  induction q with
  | nil => simp
  | cons p q ih =>
    obtain ⟨a, b⟩ := p
    by_cases hk : k = key
    · subst hk
      by_cases ha : a = k
      · subst ha
        simpa [List.filter] using ih
      · have ha2 : (a != k) = true := by simpa using ha
        have ha3 : (k == a) = false := by simpa using fun e => ha e.symm
        simp only [List.filter, ha2, List.lookup, ha3, if_true] at ih ⊢
        simpa using ih
    · simp only [hk, if_false] at ih ⊢
      by_cases ha : a = key
      · subst ha
        have h1 : (k == a) = false := by simpa using hk
        simp [List.filter, List.lookup, h1, ih]
      · have ha2 : (a != key) = true := by simpa using ha
        by_cases hka : k = a
        · subst hka
          simp [List.filter, ha2, List.lookup]
        · have h1 : (k == a) = false := by simpa using hka
          simp [List.filter, ha2, List.lookup, h1, ih]

/-- Only the first value of a key is read. -/
theorem Values.Get_first_only (q : Values) (key v : Str) (rest : List Str)
    (h : q.lookup key = some (v :: rest)) (k : Str) :
    q.Get k = Values.Get ((key, [v]) :: q) k := by
  by_cases hk : k = key
  · subst hk
    simp [Values.Get, h, List.lookup]
  · have h1 : (k == key) = false := by simpa using hk
    simp [Values.Get, List.lookup, h1]

/-- A key whose first value is empty reads like a key that is not there. -/
theorem Values.Get_first_empty (q : Values) (key : Str) (rest : List Str)
    (h : q.lookup key = some ([] :: rest)) (k : Str) :
    q.Get k = Values.Get (q.filter (fun p => p.1 != key)) k := by
  unfold Values.Get
  rw [lookup_filter_ne]
  by_cases hk : k = key
  · subst hk
    simp [h]
  · simp [hk]

/-- The loop body reads a tag only through its key and through `Contains("required")`. -/
theorem parseField_retag (fl : FloatLib) (q : Values) (f : StructField) (raw raw2 : Str)
    (htag : f.tag = some raw) (hkey : (parseTag raw).1 = (parseTag raw2).1)
    (hreq : (parseTag raw).2.Contains "required".toList =
      (parseTag raw2).2.Contains "required".toList) :
    (parseField fl q ⟨some raw2, f.ty, f.val⟩).2 = (parseField fl q f).2 ∧
      (parseField fl q ⟨some raw2, f.ty, f.val⟩).1.val = (parseField fl q f).1.val := by
  simp only [parseField, htag, ← hkey, ← hreq]
  split_ifs
  · exact ⟨rfl, rfl⟩
  · exact ⟨rfl, rfl⟩
  · split
    · split <;> exact ⟨rfl, rfl⟩
    · exact ⟨rfl, rfl⟩

theorem parseFields_retag (fl : FloatLib) (q : Values) (pre post : List StructField)
    (f f2 : StructField) (hval : f2.val = f.val)
    (h2 : (parseField fl q f2).2 = (parseField fl q f).2)
    (h1 : (parseField fl q f2).1.val = (parseField fl q f).1.val) :
    (parseFields fl q (pre ++ f2 :: post)).2 = (parseFields fl q (pre ++ f :: post)).2 ∧
      (parseFields fl q (pre ++ f2 :: post)).1.map (fun g => g.val) =
        (parseFields fl q (pre ++ f :: post)).1.map (fun g => g.val) := by
  induction pre with
  | nil =>
    cases h : (parseField fl q f).2 with
    | none =>
      rw [List.nil_append, List.nil_append, parseFields_cons_ok fl q f post h,
        parseFields_cons_ok fl q f2 post (by rw [h2, h])]
      simp [h1]
    | some e =>
      rw [List.nil_append, List.nil_append, parseFields_cons_err fl q f post e h,
        parseFields_cons_err fl q f2 post e (by rw [h2, h])]
      simp [h1]
  | cons a pre ih =>
    cases h : (parseField fl q a).2 with
    | none =>
      rw [List.cons_append, List.cons_append, parseFields_cons_ok fl q a _ h,
        parseFields_cons_ok fl q a _ h]
      simp [ih.1, ih.2]
    | some e =>
      rw [List.cons_append, List.cons_append, parseFields_cons_err fl q a _ e h,
        parseFields_cons_err fl q a _ e h]
      simp [hval]

/-! ## `strconv` reads back what it formats -/

theorem digitChar_spec (d : Nat) (h : d < 10) :
    '0' ≤ Nat.digitChar d ∧ Nat.digitChar d ≤ '9' ∧
      (Nat.digitChar d).toNat - '0'.toNat = d ∧
      Nat.digitChar d ≠ '+' ∧ Nat.digitChar d ≠ '-' := by
  interval_cases d <;> decide

theorem parseUintLoop_digit (d : Nat) (hd : d < 10) (cs : List Char) (n : Nat)
    (hn : n * 10 + d < 2 ^ 64) :
    parseUintLoop (Nat.digitChar d :: cs) n = parseUintLoop cs (n * 10 + d) := by
  obtain ⟨h1, h2, h3, -, -⟩ := digitChar_spec d hd
  have hc : ¬ n ≥ cutoff10 := by
    norm_num [cutoff10, maxUint64]
    omega
  have hm : n * 10 % 2 ^ 64 = n * 10 := Nat.mod_eq_of_lt (by omega)
  have hm2 : (n * 10 + d) % 2 ^ 64 = n * 10 + d := Nat.mod_eq_of_lt hn
  have hmax : ¬ (n * 10 + d < n * 10 ∨ n * 10 + d > maxUint64) := by
    norm_num [maxUint64]
    omega
  simp only [parseUintLoop, h1, h2, h3, and_self, if_true, hc, if_false, hm, hm2, hmax]

theorem parseUintLoop_toDigitsCore (fuel : Nat) :
    ∀ (n : Nat) (acc : List Char), n < fuel → n < 2 ^ 64 →
      parseUintLoop (Nat.toDigitsCore 10 fuel n acc) 0 = parseUintLoop acc n := by
  induction fuel with
  | zero => intro n acc h; omega
  | succ fuel ih =>
    intro n acc hlt hn
    rw [Nat.toDigitsCore]
    by_cases h0 : n / 10 = 0
    · have hn10 : n < 10 := by omega
      simp only [h0, if_true]
      rw [parseUintLoop_digit (n % 10) (Nat.mod_lt _ (by norm_num)) acc 0 (by omega)]
      congr 1
      omega
    · simp only [h0, if_false]
      rw [ih (n / 10) _ (by omega) (by omega),
        parseUintLoop_digit (n % 10) (Nat.mod_lt _ (by norm_num)) acc (n / 10) (by omega)]
      congr 1
      omega

theorem toDigitsCore_head (fuel : Nat) :
    ∀ (n : Nat) (acc : List Char), n < fuel →
      ∃ d, d < 10 ∧ ∃ rest, Nat.toDigitsCore 10 fuel n acc = Nat.digitChar d :: rest := by
  induction fuel with
  | zero => intro n acc h; omega
  | succ fuel ih =>
    intro n acc hlt
    rw [Nat.toDigitsCore]
    by_cases h0 : n / 10 = 0
    · exact ⟨n % 10, Nat.mod_lt _ (by norm_num), acc, by simp [h0]⟩
    · simp only [h0, if_false]
      exact ih (n / 10) _ (by omega)

/-- `strconv.ParseUint` reads back the base-10 text of every 64-bit unsigned integer. -/
theorem ParseUint_FormatUint (n : Nat) (h : n < 2 ^ 64) :
    ParseUint (FormatUint n) = (n, none) := by
  obtain ⟨d, hd, rest, hrest⟩ := toDigitsCore_head (n + 1) n [] (by omega)
  have hl := parseUintLoop_toDigitsCore (n + 1) n [] (by omega) h
  have hne : FormatUint n ≠ [] := by
    simp [FormatUint, Nat.toDigits, hrest]
  have hne2 : Nat.toDigitsCore 10 (n + 1) n [] ≠ [] := by simp [hrest]
  simp only [ParseUint, FormatUint, Nat.toDigits, hne2, if_false, hl, parseUintLoop]

theorem ParseInt_minus (rest : Str) (n : Nat) (h : ParseUint rest = (n, none))
    (hn : n ≤ 2 ^ 63) : ParseInt ('-' :: rest) = (-(n : Int), none) := by
  have hs : (if '-' = '+' ∨ '-' = '-' then rest else '-' :: rest) = rest :=
    if_pos (Or.inr rfl)
  unfold ParseInt
  dsimp only
  rw [hs, h]
  simp only [Nat.reducePow] at hn
  simp [hn]

theorem ParseInt_unsigned (c : Char) (rest : Str) (n : Nat) (hp : c ≠ '+') (hm : c ≠ '-')
    (h : ParseUint (c :: rest) = (n, none)) (hn : n < 2 ^ 63) :
    ParseInt (c :: rest) = ((n : Int), none) := by
  have hs : (if c = '+' ∨ c = '-' then rest else c :: rest) = c :: rest :=
    if_neg (by simp [hp, hm])
  unfold ParseInt
  dsimp only
  rw [hs, h]
  simp only [Nat.reducePow] at hn
  simp [hn, hm]

/-- `strconv.ParseInt` reads back the base-10 text of every 64-bit signed integer. -/
theorem ParseInt_FormatInt (v : Int) (hlo : -2 ^ 63 ≤ v) (hhi : v < 2 ^ 63) :
    ParseInt (FormatInt v) = (v, none) := by
  by_cases hneg : v < 0
  · have hf : FormatInt v = '-' :: FormatUint v.natAbs := by simp [FormatInt, FormatUint, hneg]
    have hu := ParseUint_FormatUint v.natAbs (by omega)
    rw [hf, ParseInt_minus _ _ hu (by omega)]
    congr 1
    omega
  · obtain ⟨d, hd, rest, hrest⟩ := toDigitsCore_head (v.toNat + 1) v.toNat [] (by omega)
    obtain ⟨-, -, -, hp, hm⟩ := digitChar_spec d hd
    have hf : FormatInt v = Nat.digitChar d :: rest := by
      simp [FormatInt, hneg, Nat.toDigits, hrest]
    have hu := ParseUint_FormatUint v.toNat (by omega)
    rw [FormatUint, Nat.toDigits, hrest] at hu
    rw [hf, ParseInt_unsigned _ _ _ hp hm hu (by omega)]
    congr 1
    omega

theorem ParseUint_Num (s : Str) (e : NumError) (h : (ParseUint s).2 = some e) : e.Num = s := by
  unfold ParseUint at h
  split at h
  · cases h
    rfl
  · split at h
    · cases h
    · cases h
      rfl

theorem ParseInt_Num (s : Str) (e : NumError) (h : (ParseInt s).2 = some e) : e.Num = s := by
  unfold ParseInt at h
  cases s with
  | nil =>
    cases h
    rfl
  | cons c rest =>
    simp only at h
    split_ifs at h <;> (cases h; rfl)

theorem ParseBool_Num (s : Str) (e : NumError) (h : (ParseBool s).2 = some e) : e.Num = s := by
  unfold ParseBool at h
  split_ifs at h
  cases h
  rfl

/-- `strconv.ParseUint` accepts no sign. -/
theorem ParseUint_sign (s : Str) :
    (ParseUint ('+' :: s)).2 = some ⟨"ParseUint".toList, '+' :: s, .ErrSyntax⟩ ∧
      (ParseUint ('-' :: s)).2 = some ⟨"ParseUint".toList, '-' :: s, .ErrSyntax⟩ := by
  constructor <;> simp [ParseUint, parseUintLoop]

/-! ## Facts about `ParseContentRange` -/

theorem stringsSplit_length (sep : Char) (s : Str) :
    (stringsSplit sep s).length = s.count sep + 1 := by
  induction s with
  | nil => rfl
  | cons c cs ih =>
    by_cases hc : c = sep
    · subst hc
      simp [stringsSplit, ih]
    · have hne : (c == sep) = false := by simpa using hc
      simp only [stringsSplit, hc, if_false, List.length_cons, List.length_tail, ih,
        List.count_cons, hne]
      simp

/-- Two pieces mean exactly one separator, between them. -/
theorem stringsSplit_eq_pair (sep : Char) (s a b : Str) (h : stringsSplit sep s = [a, b]) :
    s = a ++ sep :: b ∧ sep ∉ a ∧ sep ∉ b := by
  by_cases hs : sep ∈ s
  · obtain ⟨j, -, h2, h3⟩ := indexFrom_mem sep s 0 hs
    have hsplit := stringsSplit_append sep (s.take j) (s.drop (j + 1)) h3
    rw [h2, h] at hsplit
    simp only [List.cons.injEq] at hsplit
    obtain ⟨ha, hb⟩ := hsplit
    have hlen := stringsSplit_length sep (s.drop (j + 1))
    rw [← hb] at hlen
    have hcount : (s.drop (j + 1)).count sep = 0 := by simpa using hlen.symm
    have hnot : sep ∉ s.drop (j + 1) := List.count_eq_zero.mp hcount
    have hb2 := stringsSplit_not_mem sep _ hnot
    rw [← hb] at hb2
    simp only [List.cons.injEq, and_true] at hb2
    refine ⟨?_, ?_, ?_⟩
    · rw [ha, hb2]
      exact h2.symm
    · rw [ha]
      exact h3
    · rw [hb2]
      exact hnot
  · rw [stringsSplit_not_mem sep s hs] at h
    simp at h

theorem stringsSplit_pair (sep : Char) (a b : Str) (ha : sep ∉ a) (hb : sep ∉ b) :
    stringsSplit sep (a ++ sep :: b) = [a, b] := by
  rw [stringsSplit_append sep a b ha, stringsSplit_not_mem sep b hb]

theorem dropWhile_none (p : Char → Bool) (s : Str) (h : ∀ c ∈ s, p c = false) :
    s.dropWhile p = s := by
  cases s with
  | nil => rfl
  | cons c cs => simp [List.dropWhile, h c (List.mem_cons_self _ _)]

/-- A text without white space is its own trimming. -/
theorem TrimSpace_id (s : Str) (h : ∀ c ∈ s, isSpace c = false) : TrimSpace s = s := by
  unfold TrimSpace
  rw [dropWhile_none isSpace s h,
    dropWhile_none isSpace s.reverse (fun c hc => h c (List.mem_reverse.mp hc)),
    List.reverse_reverse]

theorem digitChar_plain (d : Nat) (h : d < 10) :
    Nat.digitChar d ≠ '/' ∧ Nat.digitChar d ≠ '-' ∧ isSpace (Nat.digitChar d) = false := by
  interval_cases d <;> decide

theorem toDigitsCore_digits (fuel : Nat) :
    ∀ (n : Nat) (acc : List Char), (∀ c ∈ acc, ∃ d, d < 10 ∧ c = Nat.digitChar d) →
      ∀ c ∈ Nat.toDigitsCore 10 fuel n acc, ∃ d, d < 10 ∧ c = Nat.digitChar d := by
  induction fuel with
  | zero =>
    intro n acc hacc c hc
    simp only [Nat.toDigitsCore] at hc
    exact hacc c hc
  | succ fuel ih =>
    intro n acc hacc
    have hcons : ∀ c ∈ Nat.digitChar (n % 10) :: acc, ∃ d, d < 10 ∧ c = Nat.digitChar d := by
      intro c hc
      rcases List.mem_cons.mp hc with h1 | h1
      · exact ⟨n % 10, Nat.mod_lt _ (by norm_num), h1⟩
      · exact hacc c h1
    rw [Nat.toDigitsCore]
    by_cases h0 : n / 10 = 0
    · simp only [h0, if_true]
      exact hcons
    · simp only [h0, if_false]
      exact ih (n / 10) _ hcons

/-- The base-10 text of a non-negative integer has no slash, no dash and no white space. -/
theorem FormatInt_plain (v : Int) (hv : 0 ≤ v) :
    '/' ∉ FormatInt v ∧ '-' ∉ FormatInt v ∧ ∀ c ∈ FormatInt v, isSpace c = false := by
  have hneg : ¬ v < 0 := by omega
  have hd : ∀ c ∈ FormatInt v, ∃ d, d < 10 ∧ c = Nat.digitChar d := by
    simp only [FormatInt, hneg, if_false, Nat.toDigits]
    exact toDigitsCore_digits _ _ [] (by simp)
  refine ⟨?_, ?_, ?_⟩
  · intro hm
    obtain ⟨d, hd1, hd2⟩ := hd _ hm
    exact (digitChar_plain d hd1).1 hd2.symm
  · intro hm
    obtain ⟨d, hd1, hd2⟩ := hd _ hm
    exact (digitChar_plain d hd1).2.1 hd2.symm
  · intro c hc
    obtain ⟨d, hd1, hd2⟩ := hd _ hc
    rw [hd2]
    exact (digitChar_plain d hd1).2.2

/-- `ParseContentRange` on the text of three non-negative `int64` numbers. -/
theorem ParseContentRange_text (s e z : Int) (hs : 0 ≤ s) (he : 0 ≤ e) (hz : 0 ≤ z)
    (hs2 : s < 2 ^ 63) (he2 : e < 2 ^ 63) (hz2 : z < 2 ^ 63) :
    ParseContentRange (contentRangeText s e z) =
      if s > e ∨ e > z then (none, some .ErrInvalidRange) else (some ⟨s, e, z⟩, none) := by
  obtain ⟨s1, s2, s3⟩ := FormatInt_plain s hs
  obtain ⟨e1, e2, e3⟩ := FormatInt_plain e he
  obtain ⟨z1, z2, z3⟩ := FormatInt_plain z hz
  have hps := ParseInt_FormatInt s (by omega) hs2
  have hpe := ParseInt_FormatInt e (by omega) he2
  have hpz := ParseInt_FormatInt z (by omega) hz2
  have htext : contentRangeText s e z =
      "bytes ".toList ++ ((FormatInt s ++ '-' :: FormatInt e) ++ '/' :: FormatInt z) := by
    simp [contentRangeText, List.append_assoc]
  have hne : contentRangeText s e z ≠ [] := by
    rw [htext]
    simp
  have hpre : "bytes ".toList.isPrefixOf (contentRangeText s e z) = true := by
    rw [htext]
    simp
  have hdrop : (contentRangeText s e z).drop "bytes ".toList.length =
      (FormatInt s ++ '-' :: FormatInt e) ++ '/' :: FormatInt z := by
    rw [htext]
    exact List.drop_left _ _
  have hran : '/' ∉ FormatInt s ++ '-' :: FormatInt e := by
    simp only [List.mem_append, List.mem_cons, not_or]
    exact ⟨s1, by decide, e1⟩
  have hsp1 := stringsSplit_pair '/' _ _ hran z1
  have hsp2 := stringsSplit_pair '-' _ _ s2 e2
  unfold ParseContentRange
  simp only [hne, if_false, hpre, not_true_eq_false, hdrop, hsp1, hsp2, TrimSpace_id _ s3,
    TrimSpace_id _ e3, TrimSpace_id _ z3, hps, hpe, hpz, ne_eq]
  by_cases h1 : s > e
  · simp [h1]
  · by_cases h2 : e > z
    · simp [h1, h2]
    · simp [h1, h2]

/-- `ErrInvalidRange` is only returned after the prefix, both separators and all three
numbers were accepted. -/
theorem ParseContentRange_range_error (str : Str)
    (h : (ParseContentRange str).2 = some .ErrInvalidRange) :
    ∃ a b c, str = "bytes ".toList ++ ((a ++ '-' :: b) ++ '/' :: c) ∧
      (ParseInt (TrimSpace a)).2 = none ∧ (ParseInt (TrimSpace b)).2 = none ∧
      (ParseInt (TrimSpace c)).2 = none ∧
      ((ParseInt (TrimSpace a)).1 > (ParseInt (TrimSpace b)).1 ∨
        (ParseInt (TrimSpace b)).1 > (ParseInt (TrimSpace c)).1) ∧
      (ParseContentRange str).1 = none := by
  unfold ParseContentRange at h ⊢
  by_cases hs : str = []
  · simp only [hs, if_true] at h
    cases h
  by_cases hp : "bytes ".toList.isPrefixOf str = true
  swap
  · simp only [hs, if_false, hp, not_false_eq_true, if_true] at h
    cases h
  obtain ⟨rest, hrest⟩ := List.isPrefixOf_iff_prefix.mp hp
  have hdrop : str.drop "bytes ".toList.length = rest := by
    rw [← hrest]
    exact List.drop_left _ _
  simp only [hs, if_false, hp, not_true_eq_false, hdrop] at h ⊢
  rcases hsp : stringsSplit '/' rest with _ | ⟨ran, _ | ⟨c, _ | ⟨x, xs⟩⟩⟩ <;>
    rw [hsp] at h <;> simp only at h
  · cases h
  · cases h
  · simp only
    by_cases hc : (ParseInt (TrimSpace c)).2 = none
    swap
    · simp only [ne_eq, hc, not_false_eq_true, if_true] at h
      cases h
    simp only [ne_eq, hc, not_true_eq_false, if_false] at h ⊢
    rcases hsp2 : stringsSplit '-' ran with _ | ⟨a, _ | ⟨b, _ | ⟨y, ys⟩⟩⟩ <;>
      rw [hsp2] at h <;> simp only at h
    · cases h
    · cases h
    · simp only
      by_cases ha : (ParseInt (TrimSpace a)).2 = none
      swap
      · simp only [ha, not_false_eq_true, if_true] at h
        cases h
      by_cases hb : (ParseInt (TrimSpace b)).2 = none
      swap
      · simp only [ha, not_true_eq_false, if_false, hb, not_false_eq_true, if_true] at h
        cases h
      simp only [ha, hb, not_true_eq_false, if_false] at h ⊢
      obtain ⟨e1, -, -⟩ := stringsSplit_eq_pair '/' rest ran c hsp
      obtain ⟨e2, -, -⟩ := stringsSplit_eq_pair '-' ran a b hsp2
      refine ⟨a, b, c, by rw [← hrest, e1, e2], ha, hb, hc, ?_, ?_⟩
      · by_contra hno
        simp only [not_or] at hno
        simp only [hno.1, hno.2, if_false] at h
        cases h
      · by_cases h1 : (ParseInt (TrimSpace a)).1 > (ParseInt (TrimSpace b)).1
        · simp only [h1, if_true]
        · by_cases h2 : (ParseInt (TrimSpace b)).1 > (ParseInt (TrimSpace c)).1
          · simp only [h1, if_false, h2, if_true]
          · simp only [h1, h2, if_false] at h
            cases h
    · cases h
  · cases h

theorem stringsSplit_not_pair (sep : Char) (s : Str) (h : s.count sep ≠ 1) :
    ∀ a b, stringsSplit sep s ≠ [a, b] := by
  intro a b hab
  have hlen := stringsSplit_length sep s
  rw [hab] at hlen
  simp only [List.length_cons, List.length_nil] at hlen
  omega

theorem TrimSpace_subset (s : Str) (c : Char) (h : c ∈ TrimSpace s) : c ∈ s := by
  unfold TrimSpace at h
  have h1 := List.dropWhile_subset (l := (s.dropWhile isSpace).reverse) isSpace
    (List.mem_reverse.mp h)
  exact List.dropWhile_subset isSpace (List.mem_reverse.mp h1)

/-- Without a minus sign `strconv.ParseInt` returns no negative number. -/
theorem ParseInt_nonneg (s : Str) (h : '-' ∉ s) : 0 ≤ (ParseInt s).1 := by
  unfold ParseInt
  cases s with
  | nil => simp
  | cons c rest =>
    have hc : c ≠ '-' := fun e => h (by simp [e])
    have hneg : decide (c = '-') = false := by simpa using hc
    simp only [hneg]
    split_ifs <;> simp_all

/-- A call of `ParseContentRange` without error returned a range, and the range is ordered and
not negative. -/
theorem ParseContentRange_ok (str : Str) (h : (ParseContentRange str).2 = none) :
    ∃ r, (ParseContentRange str).1 = some r ∧ 0 ≤ r.Start ∧ r.Start ≤ r.End ∧
      r.End ≤ r.Size := by
  unfold ParseContentRange at h ⊢
  by_cases hs : str = []
  · simp only [hs, if_true] at h
    cases h
  by_cases hp : "bytes ".toList.isPrefixOf str = true
  swap
  · simp only [hs, if_false, hp, not_false_eq_true, if_true] at h
    cases h
  simp only [hs, if_false, hp, not_true_eq_false] at h ⊢
  rcases hsp : stringsSplit '/' (str.drop "bytes ".toList.length)
    with _ | ⟨ran, _ | ⟨c, _ | ⟨x, xs⟩⟩⟩ <;>
    rw [hsp] at h <;> simp only at h
  · cases h
  · cases h
  · simp only
    by_cases hc : (ParseInt (TrimSpace c)).2 = none
    swap
    · simp only [ne_eq, hc, not_false_eq_true, if_true] at h
      cases h
    simp only [ne_eq, hc, not_true_eq_false, if_false] at h ⊢
    rcases hsp2 : stringsSplit '-' ran with _ | ⟨a, _ | ⟨b, _ | ⟨y, ys⟩⟩⟩ <;>
      rw [hsp2] at h <;> simp only at h
    · cases h
    · cases h
    · simp only
      by_cases ha : (ParseInt (TrimSpace a)).2 = none
      swap
      · simp only [ha, not_false_eq_true, if_true] at h
        cases h
      by_cases hb : (ParseInt (TrimSpace b)).2 = none
      swap
      · simp only [ha, not_true_eq_false, if_false, hb, not_false_eq_true, if_true] at h
        cases h
      simp only [ha, hb, not_true_eq_false, if_false] at h ⊢
      by_cases h1 : (ParseInt (TrimSpace a)).1 > (ParseInt (TrimSpace b)).1
      · simp only [h1, if_true] at h
        cases h
      by_cases h2 : (ParseInt (TrimSpace b)).1 > (ParseInt (TrimSpace c)).1
      · simp only [h1, if_false, h2, if_true] at h
        cases h
      simp only [h1, h2, if_false]
      obtain ⟨-, hna, -⟩ := stringsSplit_eq_pair '-' ran a b hsp2
      have hstart : 0 ≤ (ParseInt (TrimSpace a)).1 :=
        ParseInt_nonneg _ (fun hm => hna (TrimSpace_subset a '-' hm))
      exact ⟨_, rfl, hstart, by simpa using h1, by simpa using h2⟩
    · cases h
  · cases h

/-! ## The claims -/

/-- C1: a field marked `required` whose key has no non-empty value in the input (the key is
absent, or its first value is the empty string), in a record none of whose earlier fields
fails, makes `ParseQuery` return the missing-field error `errors.Bad` whose `Field` is that
field's lookup key. -/
theorem ParseQuery_required_missing (fl : FloatLib) (q : Values) (name : Str)
    (pre post : List StructField) (f : StructField) (raw : Str)
    (hpre : ∀ g ∈ pre, (parseField fl q g).2 = none)
    (htag : f.tag = some raw)
    (hreq : (parseTag raw).2.Contains "required".toList = true)
    (hval : q.lookup (parseTag raw).1 = none ∨
      ∃ rest, q.lookup (parseTag raw).1 = some ([] :: rest)) :
    (ParseQuery fl q (.pointerToStruct name (pre ++ f :: post))).err =
        some (.Bad ⟨(parseTag raw).1, "Missing query string".toList⟩) ∧
      ((ParseQuery fl q (.pointerToStruct name (pre ++ f :: post))).err.bind Err.fieldKey) =
        some (parseTag raw).1 := by
  have hf := parseField_no_value fl q f raw htag (Values.Get_eq_nil q _ hval)
  rw [if_pos hreq] at hf
  have h2 : (parseField fl q f).2 =
      some (.Bad ⟨(parseTag raw).1, "Missing query string".toList⟩) := by rw [hf]
  rw [ParseQuery_struct, parseFields_append fl q pre _ hpre, parseFields_cons_err fl q f post _ h2]
  simp [Outcome.err, Err.fieldKey]

/-- C1 at the test record `{min required, max optional}` with an input that only supplies
`max`: the error names `min`. -/
theorem ParseQuery_required_missing_witness :
    (parseTag "min,required".toList).2.Contains "required".toList = true ∧
      List.lookup (parseTag "min,required".toList).1
        [("max".toList, ["2027-12-20T14:00:00Z".toList])] = none ∧
      (ParseQuery testFloat [("max".toList, ["2027-12-20T14:00:00Z".toList])]
          (.pointerToStruct "dummyParseQueryRequired".toList dummyParseQueryRequired)).err =
        some (.Bad ⟨"min".toList, "Missing query string".toList⟩) :=
  ⟨by decide, by decide, (ParseQuery_required_missing testFloat
      [("max".toList, ["2027-12-20T14:00:00Z".toList])] "dummyParseQueryRequired".toList []
      [⟨some "max".toList, .ptr tyUTC, .nil⟩] ⟨some "min,required".toList, tyUTC, .int 0⟩
      "min,required".toList (by simp) rfl (by decide) (Or.inl (by decide))).1⟩

/-- C2: a field that has no `qs` tag, or under whose lookup key the input holds no non-empty
value, is exactly as it was when `ParseQuery` returns, with or without an error, and it is
still at its position. -/
theorem ParseQuery_frame (fl : FloatLib) (q : Values) (name : Str)
    (pre post : List StructField) (f : StructField)
    (h : f.tag = none ∨ ∃ raw, f.tag = some raw ∧ q.hasNoValue (parseTag raw).1) :
    ∃ pre1 post1 e,
      ParseQuery fl q (.pointerToStruct name (pre ++ f :: post)) =
        .returned (.pointerToStruct name (pre1 ++ f :: post1)) e ∧
      pre1.length = pre.length := by
  have hf : (parseField fl q f).1 = f := by
    rcases h with h | ⟨raw, htag, hval⟩
    · rw [parseField_untagged fl q f h]
    · rw [parseField_no_value fl q f raw htag (Values.Get_of_hasNoValue q _ hval)]
  obtain ⟨pre1, post1, g, h1, h2, h3⟩ := parseFields_split fl q f post pre
  have hg : g = f := by
    rcases h3 with h3 | h3
    · exact h3
    · rw [h3, hf]
  subst hg
  exact ⟨pre1, post1, (parseFields fl q (pre ++ g :: post)).2, by rw [ParseQuery_struct, h1], h2⟩

/-- C2 on the test record with the input `limit=15&continuation=`: the string field
`continuation`, pre-populated with `"abc"` and present with an empty value, keeps `"abc"`. -/
theorem ParseQuery_frame_witness :
    Values.hasNoValue [("limit".toList, ["15".toList]), ("continuation".toList, [[]])]
        (parseTag "continuation".toList).1 ∧
      ∃ pre1 post1 e,
        ParseQuery testFloat [("limit".toList, ["15".toList]), ("continuation".toList, [[]])]
            (.pointerToStruct "dummyParseQuery".toList
              (dummyParseQuery.take 3 ++
                ⟨some "continuation".toList, .base .String true none, .str "abc".toList⟩ ::
                dummyParseQuery.drop 4)) =
          .returned (.pointerToStruct "dummyParseQuery".toList
              (pre1 ++ ⟨some "continuation".toList, .base .String true none,
                .str "abc".toList⟩ :: post1)) e ∧
        pre1.length = (dummyParseQuery.take 3).length :=
  ⟨by decide, ParseQuery_frame testFloat _ _ _ _ _ (Or.inr ⟨_, rfl, by decide⟩)⟩

/-- C3: on the empty input, a record none of whose fields is marked `required` decodes without
error and every field keeps its value. -/
theorem ParseQuery_empty_input (fl : FloatLib) (name : Str) (fields : List StructField)
    (hopt : ∀ f ∈ fields, ∀ raw, f.tag = some raw →
      (parseTag raw).2.Contains "required".toList = false) :
    ParseQuery fl [] (.pointerToStruct name fields) =
      .returned (.pointerToStruct name fields) none := by
  have key : parseFields fl [] fields = (fields, none) := by
    induction fields with
    | nil => rfl
    | cons f rest ih =>
      have hf : parseField fl [] f = (f, none) := by
        cases htag : f.tag with
        | none => exact parseField_untagged fl [] f htag
        | some raw =>
          rw [parseField_no_value fl [] f raw htag (by simp [Values.Get])]
          rw [hopt f (List.mem_cons_self _ _) raw htag]
          rfl
      have ih2 := ih (fun g hg => hopt g (List.mem_cons_of_mem _ hg))
      rw [parseFields_cons_ok fl [] f rest (by rw [hf]), hf, ih2]
  rw [ParseQuery_struct, key]

/-- C3 on the zero-valued test record `dummyParseQuery` (`parser_test.go:36`). -/
theorem ParseQuery_empty_input_witness :
    (∀ f ∈ dummyParseQuery, ∀ raw, f.tag = some raw →
        (parseTag raw).2.Contains "required".toList = false) ∧
      ParseQuery testFloat [] (.pointerToStruct "dummyParseQuery".toList dummyParseQuery) =
        .returned (.pointerToStruct "dummyParseQuery".toList dummyParseQuery) none :=
  have h : ∀ f ∈ dummyParseQuery, ∀ raw, f.tag = some raw →
      (parseTag raw).2.Contains "required".toList = false := by
    intro f hf raw htag
    simp only [dummyParseQuery, List.mem_cons, List.mem_singleton, List.not_mem_nil,
      or_false] at hf
    rcases hf with rfl | rfl | rfl | rfl | rfl | rfl | rfl <;>
      · cases htag
        decide
  ⟨h, ParseQuery_empty_input testFloat _ dummyParseQuery h⟩

/-- C4: `ParseQuery` is fail-fast in declaration order.  When `f` is the first field whose
decoding fails, the call returns the error of `f`; every earlier field holds what its own
decoding stored (no rollback); every later field is as before the call. -/
theorem ParseQuery_fail_fast (fl : FloatLib) (q : Values) (name : Str)
    (pre post : List StructField) (f : StructField) (e : Err)
    (hpre : ∀ g ∈ pre, (parseField fl q g).2 = none)
    (hf : (parseField fl q f).2 = some e) :
    ParseQuery fl q (.pointerToStruct name (pre ++ f :: post)) =
      .returned
        (.pointerToStruct name
          (pre.map (fun g => (parseField fl q g).1) ++ (parseField fl q f).1 :: post))
        (some e) := by
  rw [ParseQuery_struct, parseFields_append fl q pre _ hpre, parseFields_cons_err fl q f post e hf]

/-- C4 on the test record with `max` valid, `limit=-1` malformed and `q=foo` valid: the error is
the one of `limit`, `max` stays decoded, and `q` stays nil although its value is valid. -/
theorem ParseQuery_fail_fast_witness :
    (ParseQuery testFloat
        [("max".toList, ["2027-12-20T14:00:00Z".toList]), ("limit".toList, ["-1".toList]),
          ("q".toList, ["foo".toList])]
        (.pointerToStruct "dummyParseQuery".toList dummyParseQuery)).err =
        some (.WithBad (.numError ⟨"ParseUint".toList, "-1".toList, .ErrSyntax⟩)) ∧
      (ParseQuery testFloat
        [("max".toList, ["2027-12-20T14:00:00Z".toList]), ("limit".toList, ["-1".toList]),
          ("q".toList, ["foo".toList])]
        (.pointerToStruct "dummyParseQuery".toList dummyParseQuery)).fieldVals =
        [.int 0, .ref (.int 1829311200000000000), .uint 0, .str [], .nil, .bool false,
          .float 0] := by
  have h := ParseQuery_fail_fast testFloat
    [("max".toList, ["2027-12-20T14:00:00Z".toList]), ("limit".toList, ["-1".toList]),
      ("q".toList, ["foo".toList])] "dummyParseQuery".toList
    (dummyParseQuery.take 2) (dummyParseQuery.drop 3)
    ⟨some "limit".toList, .base .Uint true none, .uint 0⟩
    (.WithBad (.numError ⟨"ParseUint".toList, "-1".toList, .ErrSyntax⟩))
    (by decide) (by decide)
  have hrec : dummyParseQuery.take 2 ++
      ⟨some "limit".toList, .base .Uint true none, .uint 0⟩ :: dummyParseQuery.drop 3 =
      dummyParseQuery := rfl
  rw [hrec] at h
  rw [h]
  exact ⟨rfl, by decide⟩

/-- C5, the claim as stated fails.  On the test record with `limit=-1` (an unsigned field and a
text with a leading sign) `ParseQuery` returns `errors.WithBad` of the `strconv` failure, an
error built without the field's lookup key `limit`.  With `limit=` (the empty text, which
`strconv.ParseUint` rejects) there is no error at all.  And an `int32` field given
`4294967296`, which is no 32-bit integer, is decoded without error. -/
theorem ParseQuery_invalid_value_has_no_key :
    ((ParseQuery testFloat [("limit".toList, ["-1".toList])]
        (.pointerToStruct "dummyParseQuery".toList dummyParseQuery)).err =
        some (.WithBad (.numError ⟨"ParseUint".toList, "-1".toList, .ErrSyntax⟩)) ∧
      ((ParseQuery testFloat [("limit".toList, ["-1".toList])]
        (.pointerToStruct "dummyParseQuery".toList dummyParseQuery)).err.bind Err.fieldKey) ≠
        some "limit".toList) ∧
      ((ParseUint []).2 ≠ none ∧
        (ParseQuery testFloat [("limit".toList, [[]])]
          (.pointerToStruct "dummyParseQuery".toList dummyParseQuery)).err = none) ∧
      ((ParseQuery testFloat [("n".toList, ["4294967296".toList])]
          (.pointerToStruct "int32Record".toList int32Record)).err = none ∧
        (ParseQuery testFloat [("n".toList, ["4294967296".toList])]
          (.pointerToStruct "int32Record".toList int32Record)).fieldVals = [.int 0]) := by
  decide

/-- C5 as amended: when no earlier field fails and the field's key has a non-empty value that
`strconv` rejects at base 10 and 64 bits for the field's signed, unsigned or boolean kind, or
that the field's own decoder rejects, `ParseQuery` returns `errors.WithBad` of exactly that
underlying failure, and a `strconv` failure records the rejected text.  `strconv.ParseUint`
rejects every text with a leading sign. -/
theorem ParseQuery_invalid_value (fl : FloatLib) (q : Values) (name : Str)
    (pre post : List StructField) (f : StructField) (raw : Str)
    (n : Nat) (k : Kind) (named : Bool) (um : Option Unmarshaler)
    (hpre : ∀ g ∈ pre, (parseField fl q g).2 = none)
    (htag : f.tag = some raw) (hval : q.Get (parseTag raw).1 ≠ [])
    (hty : f.ty = ptrChain n (.base k named um)) :
    (um = none → k ∈ [Kind.Int, Kind.Int32, Kind.Int64] →
        ∀ e, (ParseInt (q.Get (parseTag raw).1)).2 = some e →
          (ParseQuery fl q (.pointerToStruct name (pre ++ f :: post))).err =
              some (.WithBad (.numError e)) ∧
            e.Num = q.Get (parseTag raw).1) ∧
      (um = none → k ∈ [Kind.Uint, Kind.Uint32, Kind.Uint64] →
        ∀ e, (ParseUint (q.Get (parseTag raw).1)).2 = some e →
          (ParseQuery fl q (.pointerToStruct name (pre ++ f :: post))).err =
              some (.WithBad (.numError e)) ∧
            e.Num = q.Get (parseTag raw).1) ∧
      (um = none → k = Kind.Bool →
        ∀ e, (ParseBool (q.Get (parseTag raw).1)).2 = some e →
          (ParseQuery fl q (.pointerToStruct name (pre ++ f :: post))).err =
              some (.WithBad (.numError e)) ∧
            e.Num = q.Get (parseTag raw).1) ∧
      (∀ u c, um = some u → (1 ≤ n ∨ named = true) →
        (u (q.Get (parseTag raw).1) (f.ty.getLeaf f.val)).2 = some c →
          (ParseQuery fl q (.pointerToStruct name (pre ++ f :: post))).err =
            some (.WithBad c)) ∧
      (∀ s, (ParseUint ('+' :: s)).2 ≠ none ∧ (ParseUint ('-' :: s)).2 ≠ none) := by
  have hloop : ∀ e, (parseField fl q f).2 = some e →
      (ParseQuery fl q (.pointerToStruct name (pre ++ f :: post))).err = some e := by
    intro e he
    rw [ParseQuery_struct, parseFields_append fl q pre _ hpre,
      parseFields_cons_err fl q f post e he]
    rfl
  refine ⟨?_, ?_, ?_, ?_, ?_⟩
  · intro hum hk e he
    subst hum
    refine ⟨hloop _ ?_, ParseInt_Num _ e he⟩
    rw [parseField_leaf fl q f raw n k named htag hval hty]
    simp only [List.mem_cons, List.mem_singleton, List.not_mem_nil, or_false] at hk
    rcases hk with rfl | rfl | rfl <;> simp [coerce, he]
  · intro hum hk e he
    subst hum
    refine ⟨hloop _ ?_, ParseUint_Num _ e he⟩
    rw [parseField_leaf fl q f raw n k named htag hval hty]
    simp only [List.mem_cons, List.mem_singleton, List.not_mem_nil, or_false] at hk
    rcases hk with rfl | rfl | rfl <;> simp [coerce, he]
  · intro hum hk e he
    subst hum
    subst hk
    refine ⟨hloop _ ?_, ParseBool_Num _ e he⟩
    rw [parseField_leaf fl q f raw n Kind.Bool named htag hval hty]
    simp [coerce, he]
  · intro u c hum hn hc
    subst hum
    apply hloop
    rw [parseField_custom fl q f raw n k named u htag hval hty hn, hc]
    rfl
  · intro s
    have h := ParseUint_sign s
    rw [h.1, h.2]
    simp

/-- C5 as amended, on the test record with `min=20`: the timestamp decoder of `utc.UTC` rejects
`20`, and `ParseQuery` returns that failure wrapped by `errors.WithBad`. -/
theorem ParseQuery_invalid_value_witness :
    Values.Get [("min".toList, ["20".toList])] (parseTag "min".toList).1 ≠ [] ∧
      (ParseQuery testFloat [("min".toList, ["20".toList])]
          (.pointerToStruct "dummyParseQuery".toList dummyParseQuery)).err =
        some (.WithBad (.custom "parsing time: cannot parse".toList)) :=
  ⟨by decide,
    ((ParseQuery_invalid_value testFloat [("min".toList, ["20".toList])]
      "dummyParseQuery".toList [] (dummyParseQuery.drop 1) ⟨some "min".toList, tyUTC, .int 0⟩
      "min".toList 0 .Int64 true (some (utcUnmarshalText testParse))
      (by simp) rfl (by decide) rfl).2.2.2.1
      (utcUnmarshalText testParse) (.custom "parsing time: cannot parse".toList) rfl
      (Or.inr rfl) (by decide))⟩

/-- C6, the claim as stated fails for the empty string: a zero-valued record whose string field
is marked `required`, decoded from an input that gives the field the value `""`, makes
`ParseQuery` return the missing-field error instead of storing `""` without error. -/
theorem ParseQuery_roundtrip_empty_required :
    Values.Get [("s".toList, [[]])] (parseTag "s,required".toList).1 = [] ∧
      (ParseQuery testFloat [("s".toList, [[]])]
        (.pointerToStruct "rec".toList
          [⟨some "s,required".toList, .base .String true none, .str []⟩])).err =
        some (.Bad ⟨"s".toList, "Missing query string".toList⟩) := by
  decide

/-- C6 as amended: primitive coercion round-trips.  In a record whose other fields decode
without error, a 64-bit signed field given the base-10 text of `v` ends holding `v`, a 64-bit
unsigned field given the base-10 text of `n` ends holding `n`, a boolean field given `true` or
`false` ends holding that boolean, and a zero-valued string field given `s` ends holding `s`
unchanged provided `s` is not empty or the field is not marked `required`; in each case
`ParseQuery` returns no error. -/
theorem ParseQuery_roundtrip (fl : FloatLib) (q : Values) (name : Str)
    (pre post : List StructField) (f : StructField) (raw : Str) (named : Bool)
    (hpre : ∀ g ∈ pre, (parseField fl q g).2 = none)
    (hpost : ∀ g ∈ post, (parseField fl q g).2 = none)
    (htag : f.tag = some raw) :
    (∀ v : Int, -2 ^ 63 ≤ v → v < 2 ^ 63 → f.ty = .base .Int64 named none →
        q.Get (parseTag raw).1 = FormatInt v →
        ParseQuery fl q (.pointerToStruct name (pre ++ f :: post)) =
          .returned (.pointerToStruct name
            (pre.map (fun g => (parseField fl q g).1) ++ ⟨f.tag, f.ty, .int v⟩ ::
              post.map (fun g => (parseField fl q g).1))) none) ∧
      (∀ n : Nat, n < 2 ^ 64 → f.ty = .base .Uint64 named none →
        q.Get (parseTag raw).1 = FormatUint n →
        ParseQuery fl q (.pointerToStruct name (pre ++ f :: post)) =
          .returned (.pointerToStruct name
            (pre.map (fun g => (parseField fl q g).1) ++ ⟨f.tag, f.ty, .uint n⟩ ::
              post.map (fun g => (parseField fl q g).1))) none) ∧
      (∀ b : Bool, f.ty = .base .Bool named none →
        q.Get (parseTag raw).1 = (if b then "true".toList else "false".toList) →
        ParseQuery fl q (.pointerToStruct name (pre ++ f :: post)) =
          .returned (.pointerToStruct name
            (pre.map (fun g => (parseField fl q g).1) ++ ⟨f.tag, f.ty, .bool b⟩ ::
              post.map (fun g => (parseField fl q g).1))) none) ∧
      (∀ s : Str, f.ty = .base .String named none → f.val = .str [] →
        q.Get (parseTag raw).1 = s →
        (s ≠ [] ∨ (parseTag raw).2.Contains "required".toList = false) →
        ParseQuery fl q (.pointerToStruct name (pre ++ f :: post)) =
          .returned (.pointerToStruct name
            (pre.map (fun g => (parseField fl q g).1) ++ ⟨f.tag, f.ty, .str s⟩ ::
              post.map (fun g => (parseField fl q g).1))) none) := by
  have hrec : ∀ g, parseField fl q f = (g, none) →
      ParseQuery fl q (.pointerToStruct name (pre ++ f :: post)) =
        .returned (.pointerToStruct name
          (pre.map (fun g => (parseField fl q g).1) ++ g ::
            post.map (fun g => (parseField fl q g).1))) none := by
    intro g hg
    rw [ParseQuery_struct, parseFields_mid fl q pre post f g hpre hpost hg]
  refine ⟨?_, ?_, ?_, ?_⟩
  · intro v hlo hhi hty hq
    apply hrec
    have hp := ParseInt_FormatInt v hlo hhi
    have hne : q.Get (parseTag raw).1 ≠ [] := by
      rw [hq]
      intro h0
      rw [h0] at hp
      simp [ParseInt] at hp
    rw [parseField_leaf fl q f raw 0 .Int64 named htag hne hty, hq]
    simp [coerce, hp, SetInt, wrapInt_of_range v hlo hhi, refChain]
  · intro n hn hty hq
    apply hrec
    have hp := ParseUint_FormatUint n hn
    have hne : q.Get (parseTag raw).1 ≠ [] := by
      rw [hq]
      intro h0
      rw [h0] at hp
      simp [ParseUint] at hp
    rw [parseField_leaf fl q f raw 0 .Uint64 named htag hne hty, hq]
    have hmod : n % 2 ^ 64 = n := Nat.mod_eq_of_lt hn
    simp only [coerce, hp, SetUint, hmod, refChain]
  · intro b hty hq
    apply hrec
    have hne : q.Get (parseTag raw).1 ≠ [] := by
      rw [hq]
      cases b <;> decide
    rw [parseField_leaf fl q f raw 0 .Bool named htag hne hty, hq, coerce_bool_literal]
    rfl
  · intro s hty hzero hq hreq
    apply hrec
    by_cases hs : s = []
    · have hopt : (parseTag raw).2.Contains "required".toList = false := by
        rcases hreq with h | h
        · exact absurd hs h
        · exact h
      rw [parseField_no_value fl q f raw htag (by rw [hq, hs]), hopt, hs, ← hzero]
      rfl
    · have hne : q.Get (parseTag raw).1 ≠ [] := by rw [hq]; exact hs
      rw [parseField_leaf fl q f raw 0 .String named htag hne hty, hq]
      simp [coerce, refChain]

/-- C6 as amended, on the test record with `continuation=g2gCbQAAAAdya`
(`parser_test.go:40`): the string arrives unchanged and there is no error. -/
theorem ParseQuery_roundtrip_witness :
    (∀ g ∈ dummyParseQuery.take 3,
        (parseField testFloat [("continuation".toList, ["g2gCbQAAAAdya".toList])] g).2 = none) ∧
      (∀ g ∈ dummyParseQuery.drop 4,
        (parseField testFloat [("continuation".toList, ["g2gCbQAAAAdya".toList])] g).2 = none) ∧
      (ParseQuery testFloat [("continuation".toList, ["g2gCbQAAAAdya".toList])]
        (.pointerToStruct "dummyParseQuery".toList dummyParseQuery)).fieldVals =
        [.int 0, .nil, .uint 0, .str "g2gCbQAAAAdya".toList, .nil, .bool false, .float 0] ∧
      (ParseQuery testFloat [("continuation".toList, ["g2gCbQAAAAdya".toList])]
        (.pointerToStruct "dummyParseQuery".toList dummyParseQuery)).err = none := by
  have h := (ParseQuery_roundtrip testFloat
    [("continuation".toList, ["g2gCbQAAAAdya".toList])] "dummyParseQuery".toList
    (dummyParseQuery.take 3) (dummyParseQuery.drop 4)
    ⟨some "continuation".toList, .base .String true none, .str []⟩ "continuation".toList true
    (by decide) (by decide) rfl).2.2.2 "g2gCbQAAAAdya".toList rfl rfl (by decide)
    (Or.inl (by decide))
  have hrec : dummyParseQuery.take 3 ++
      ⟨some "continuation".toList, .base .String true none, .str []⟩ ::
        dummyParseQuery.drop 4 = dummyParseQuery := rfl
  rw [hrec] at h
  rw [h]
  exact ⟨by decide, by decide, by decide, rfl⟩

/-- C7, the claim as stated fails for a field whose declared type is an unnamed non-pointer
type: the field `T struct{ utc.UTC }` has the promoted `UnmarshalText`, which would store the
instant of `2027-12-20T14:00:00Z`, but `ParseQuery` never calls it and leaves the field as it
was, without error. -/
theorem ParseQuery_custom_decoder_unnamed :
    (ParseQuery testFloat [("t".toList, ["2027-12-20T14:00:00Z".toList])]
        (.pointerToStruct "rec".toList embeddedRecord)).fieldVals = [.other 0] ∧
      (ParseQuery testFloat [("t".toList, ["2027-12-20T14:00:00Z".toList])]
        (.pointerToStruct "rec".toList embeddedRecord)).err = none ∧
      (embeddedUnmarshalText "2027-12-20T14:00:00Z".toList (.other 0)).1 =
        .other 1829311200000000000 := by
  decide

/-- C7 as amended: a field whose type is `n` pointer layers around a type whose pointer
implements `UnmarshalText`, whose key has a non-empty value and before which no field fails.
If the innermost type is named or `n ≥ 1`, the decoder receives exactly the raw value (and the
content found under the pointers, zeroed where a pointer was nil), the field ends as `n`
allocated pointer layers over exactly what the decoder stored, and a decoder failure is the
returned error.  If the type is an unnamed non-pointer type, the decoder is not called and the
field is handled by its kind. -/
theorem ParseQuery_custom_decoder (fl : FloatLib) (q : Values) (name : Str)
    (pre post : List StructField) (f : StructField) (raw : Str)
    (n : Nat) (k : Kind) (named : Bool) (u : Unmarshaler)
    (hpre : ∀ g ∈ pre, (parseField fl q g).2 = none)
    (htag : f.tag = some raw) (hval : q.Get (parseTag raw).1 ≠ [])
    (hty : f.ty = ptrChain n (.base k named (some u))) :
    ((1 ≤ n ∨ named = true) →
        ∃ post1 e,
          ParseQuery fl q (.pointerToStruct name (pre ++ f :: post)) =
            .returned (.pointerToStruct name
              (pre.map (fun g => (parseField fl q g).1) ++
                ⟨f.tag, f.ty, refChain n (u (q.Get (parseTag raw).1) (f.ty.getLeaf f.val)).1⟩ ::
                post1)) e ∧
          post1.length = post.length ∧
          (∀ c, (u (q.Get (parseTag raw).1) (f.ty.getLeaf f.val)).2 = some c →
            e = some (.WithBad c))) ∧
      (n = 0 → named = false →
        ∃ post1 e,
          ParseQuery fl q (.pointerToStruct name (pre ++ f :: post)) =
            .returned (.pointerToStruct name
              (pre.map (fun g => (parseField fl q g).1) ++
                ⟨f.tag, f.ty, (coerce fl k (q.Get (parseTag raw).1) f.val).1⟩ :: post1)) e ∧
          post1.length = post.length) := by
  obtain ⟨post1, e, h1, h2, h3⟩ := parseFields_at fl q pre post f hpre
  constructor
  · intro hn
    have hf := parseField_custom fl q f raw n k named u htag hval hty hn
    refine ⟨post1, e, ?_, h2, ?_⟩
    · rw [ParseQuery_struct, h1, hf]
    · intro c hc
      exact (h3 (.WithBad c) (by rw [hf, hc]; rfl)).1
  · intro hn hnamed
    subst hn
    subst hnamed
    have hf : parseField fl q f =
        (⟨f.tag, f.ty, (coerce fl k (q.Get (parseTag raw).1) f.val).1⟩,
          (coerce fl k (q.Get (parseTag raw).1) f.val).2) := by
      simp only [parseField, htag, hval, if_false]
      rw [hty]
      rfl
    exact ⟨post1, e, by rw [ParseQuery_struct, h1, hf], h2⟩

/-- C7 as amended, on the test record with `max=2027-12-20T14:00:00Z`
(`parser_test.go:38`): the nil `*utc.UTC` is allocated and holds the parsed instant. -/
theorem ParseQuery_custom_decoder_witness :
    Values.Get [("max".toList, ["2027-12-20T14:00:00Z".toList])]
        (parseTag "max".toList).1 ≠ [] ∧
      ∃ post1 e,
        ParseQuery testFloat [("max".toList, ["2027-12-20T14:00:00Z".toList])]
            (.pointerToStruct "dummyParseQuery".toList dummyParseQuery) =
          .returned (.pointerToStruct "dummyParseQuery".toList
            (⟨some "min".toList, tyUTC, .int 0⟩ ::
              ⟨some "max".toList, .ptr tyUTC, .ref (.int 1829311200000000000)⟩ :: post1)) e ∧
        post1.length = 5 :=
  ⟨by decide,
    let ⟨post1, e, h1, h2, _⟩ := (ParseQuery_custom_decoder testFloat
      [("max".toList, ["2027-12-20T14:00:00Z".toList])] "dummyParseQuery".toList
      (dummyParseQuery.take 1) (dummyParseQuery.drop 2) ⟨some "max".toList, .ptr tyUTC, .nil⟩
      "max".toList 1 .Int64 true (utcUnmarshalText testParse)
      (by decide) rfl (by decide) rfl).1 (Or.inl (le_refl 1))
    ⟨post1, e, h1, h2⟩⟩

/-- C8: `ParseQuery` called with an untyped nil panics while building its error message
(`reflect.TypeOf(nil)` is nil); every other target that is not a non-nil pointer to a struct
is returned unchanged with an `errors.New` error. -/
theorem ParseQuery_invalid_target (fl : FloatLib) (q : Values) :
    ParseQuery fl q .untypedNil = .panicked ∧
      (∀ t, ParseQuery fl q (.nonPointer t) = .returned (.nonPointer t)
        (some (.New ("httputil: ParseQuery(non-pointer ".toList ++ t ++ ")".toList)))) ∧
      (∀ t, ParseQuery fl q (.nilPointer t) = .returned (.nilPointer t)
        (some (.New ("httputil: ParseQuery(non-pointer ".toList ++ t ++ ")".toList)))) ∧
      (∀ t, ParseQuery fl q (.pointerToNonStruct t) = .returned (.pointerToNonStruct t)
        (some (.New ("httputil: ParseQuery(unsupported type ".toList ++ t ++ ")".toList)))) :=
  ⟨rfl, fun _ => rfl, fun _ => rfl, fun _ => rfl⟩

/-- C9, the claim as stated fails for a tag that is present with an empty key.  The field
tagged `qs:",required"` is looked up under the empty key: an input with an entry under the
empty key is decoded into it, and with the empty input the field raises the missing-field
error. -/
theorem ParseQuery_empty_key_not_skipped :
    (parseTag ",required".toList).1 = [] ∧
      (ParseQuery testFloat [([], ["foo".toList])]
        (.pointerToStruct "rec".toList emptyKeyRecord)).fieldVals = [.str "foo".toList] ∧
      (ParseQuery testFloat []
        (.pointerToStruct "rec".toList emptyKeyRecord)).err =
        some (.Bad ⟨[], "Missing query string".toList⟩) := by
  decide

/-- C9 as amended: a field without a `qs` tag is skipped whatever the input contains, and so is
a field whose tag has an empty key when the input has no non-empty first value under the empty
key and the tag's options do not contain `required`.  Skipped means: the field is untouched,
and the error and all other fields are those of the record without the field. -/
theorem ParseQuery_skips_field (fl : FloatLib) (q : Values) (name : Str)
    (pre post : List StructField) (f : StructField)
    (h : f.tag = none ∨ ∃ raw, f.tag = some raw ∧ (parseTag raw).1 = [] ∧ q.Get [] = [] ∧
      (parseTag raw).2.Contains "required".toList = false) :
    ParseQuery fl q (.pointerToStruct name (pre ++ f :: post)) =
      .returned
        (.pointerToStruct name
          ((parseFields fl q (pre ++ post)).1.take pre.length ++ f ::
            (parseFields fl q (pre ++ post)).1.drop pre.length))
        (ParseQuery fl q (.pointerToStruct name (pre ++ post))).err := by
  have hf : parseField fl q f = (f, none) := by
    rcases h with h | ⟨raw, htag, hkey, hval, hreq⟩
    · exact parseField_untagged fl q f h
    · rw [parseField_no_value fl q f raw htag (by rw [hkey, hval]), hreq]
      rfl
  rw [ParseQuery_struct, parseFields_skip fl q pre post f hf, ParseQuery_struct]
  rfl

/-- C9 as amended, on a record with an untagged string field between two fields of the test
record and an input that has an entry under the empty key: the untagged field keeps `"abc"`. -/
theorem ParseQuery_skips_field_witness :
    (ParseQuery testFloat [([], ["foo".toList]), ("limit".toList, ["15".toList])]
        (.pointerToStruct "rec".toList
          (dummyParseQuery.take 3 ++ ⟨none, .base .String true none, .str "abc".toList⟩ ::
            dummyParseQuery.drop 3))).fieldVals =
        [.int 0, .nil, .uint 15, .str "abc".toList, .str [], .nil, .bool false, .float 0] ∧
      (ParseQuery testFloat [([], ["foo".toList]), ("limit".toList, ["15".toList])]
        (.pointerToStruct "rec".toList
          (dummyParseQuery.take 3 ++ ⟨none, .base .String true none, .str "abc".toList⟩ ::
            dummyParseQuery.drop 3))).err = none := by
  rw [ParseQuery_skips_field testFloat [([], ["foo".toList]), ("limit".toList, ["15".toList])]
    "rec".toList (dummyParseQuery.take 3) (dummyParseQuery.drop 3)
    ⟨none, .base .String true none, .str "abc".toList⟩ (Or.inl rfl)]
  exact ⟨by decide, by decide⟩

/-- C10: `parseTag` splits at the first comma.  If the tag contains a comma, the key is the
text before the first comma (it contains no comma) and the options are all the text after it,
so that key, comma and options put together give the tag back; if the tag contains no comma,
the key is the whole tag and the options are empty. -/
theorem parseTag_spec (tag : Str) :
    (',' ∈ tag →
        (parseTag tag).1 ++ ',' :: (parseTag tag).2 = tag ∧ ',' ∉ (parseTag tag).1) ∧
      (',' ∉ tag → parseTag tag = (tag, [])) := by
  constructor
  · intro h
    obtain ⟨j, h1, h2, h3⟩ := indexFrom_mem ',' tag 0 h
    have hidx : stringsIndex tag ',' = (j : Int) := by
      rw [stringsIndex, h1]
      simp
    have hne : (j : Int) ≠ -1 := by omega
    have hj : ((j : Int) + 1).toNat = j + 1 := by omega
    simp only [parseTag, hidx, hne, ne_eq, not_false_eq_true, if_true, sliceTo, sliceFrom,
      Int.toNat_ofNat, hj]
    exact ⟨h2, h3⟩
  · intro h
    have hidx : stringsIndex tag ',' = -1 := indexFrom_not_mem ',' tag 0 h
    simp [parseTag, hidx]

/-- C11: for a non-empty option name, `Contains` is true exactly when the name equals one of
the pieces obtained by splitting the option list at every comma. -/
theorem Contains_iff_piece (o : tagOptions) (n : Str) (hn : n ≠ []) :
    o.Contains n = true ↔ n ∈ stringsSplit ',' o := by
  by_cases ho : o.length = 0
  · have ho2 : o = [] := List.length_eq_zero.mp ho
    subst ho2
    simp [tagOptions.Contains, stringsSplit, hn]
  · simp only [tagOptions.Contains, ho, if_false]
    exact containsLoop_iff n hn (o.length + 1) o (by omega)

/-- C11 on the examples of the claim: `required` is a piece of `required` and of
`a,required,b`, not of `notrequired`, and `requir` is not a piece of `required`. -/
theorem Contains_iff_piece_witness :
    "required".toList ≠ [] ∧
      (tagOptions.Contains "a,required,b".toList "required".toList = true ↔
        "required".toList ∈ stringsSplit ',' "a,required,b".toList) ∧
      tagOptions.Contains "required".toList "required".toList = true ∧
      tagOptions.Contains "required".toList "requir".toList = false ∧
      tagOptions.Contains "a,required,b".toList "required".toList = true ∧
      tagOptions.Contains "notrequired".toList "required".toList = false :=
  ⟨by decide, Contains_iff_piece "a,required,b".toList "required".toList (by decide),
    by decide, by decide, by decide, by decide⟩

/-- C12, the claim as stated fails: with two string fields declaring the key `k` and the input
`k=foo`, the earlier field receives the value as well. -/
theorem ParseQuery_duplicate_key_both_decoded :
    (ParseQuery testFloat [("k".toList, ["foo".toList])]
        (.pointerToStruct "rec".toList duplicateKeyRecord)).fieldVals =
        [.str "foo".toList, .str "foo".toList] ∧
      (ParseQuery testFloat [("k".toList, ["foo".toList])]
        (.pointerToStruct "rec".toList duplicateKeyRecord)).err = none := by
  decide

/-- C12 as amended: when two fields of any types declare the same lookup key, the input holds a
non-empty value under it that the earlier field's decoding accepts, and no other field before
the later one fails, both fields are decoded from that value, each on its own and the earlier
one first: the record returned holds at either position what the loop body stores into that
field.  That is the value coerced by the `switch` under the allocated pointer layers for a type
without a decoder, what the decoder writes under the allocated layers for a type that exposes
one (a named type or one behind a pointer), and the value coerced by the `switch` for an unnamed
type that is not a pointer; these three shapes cover every type. -/
theorem ParseQuery_duplicate_key (fl : FloatLib) (q : Values) (name : Str)
    (pre mid post : List StructField) (f1 f2 : StructField) (raw1 raw2 : Str)
    (hpre : ∀ g ∈ pre, (parseField fl q g).2 = none)
    (hmid : ∀ g ∈ mid, (parseField fl q g).2 = none)
    (htag1 : f1.tag = some raw1) (htag2 : f2.tag = some raw2)
    (hkey : (parseTag raw1).1 = (parseTag raw2).1)
    (hval : q.Get (parseTag raw1).1 ≠ [])
    (hok1 : (parseField fl q f1).2 = none) :
    ∃ post1 e,
      ParseQuery fl q (.pointerToStruct name (pre ++ f1 :: (mid ++ f2 :: post))) =
        .returned (.pointerToStruct name
          (pre.map (fun g => (parseField fl q g).1) ++ (parseField fl q f1).1 ::
            (mid.map (fun g => (parseField fl q g).1) ++ (parseField fl q f2).1 :: post1))) e ∧
      post1.length = post.length ∧
      (∀ f, f = f1 ∨ f = f2 →
        (∀ n k named, f.ty = ptrChain n (.base k named none) →
          (parseField fl q f).1 =
            ⟨f.tag, f.ty,
              refChain n (coerce fl k (q.Get (parseTag raw1).1) (f.ty.getLeaf f.val)).1⟩) ∧
        (∀ n k named u, f.ty = ptrChain n (.base k named (some u)) → (1 ≤ n ∨ named = true) →
          (parseField fl q f).1 =
            ⟨f.tag, f.ty, refChain n (u (q.Get (parseTag raw1).1) (f.ty.getLeaf f.val)).1⟩) ∧
        (∀ k u, f.ty = .base k false (some u) →
          (parseField fl q f).1 =
            ⟨f.tag, f.ty, (coerce fl k (q.Get (parseTag raw1).1) f.val).1⟩)) ∧
      (∀ f, f = f1 ∨ f = f2 → ∃ n k named um, f.ty = ptrChain n (.base k named um) ∧
        (um = none ∨ (um ≠ none ∧ (1 ≤ n ∨ named = true)) ∨
          (um ≠ none ∧ n = 0 ∧ named = false))) := by
  have hval2 : q.Get (parseTag raw2).1 ≠ [] := by rw [← hkey]; exact hval
  obtain ⟨post1, e, h1, h2, -⟩ := parseFields_at fl q mid post f2 hmid
  refine ⟨post1, e, ?_, h2, ?_, ?_⟩
  · rw [ParseQuery_struct, parseFields_append fl q pre _ hpre,
      parseFields_cons_ok fl q f1 _ hok1, h1]
  · have key : ∀ f raw, f.tag = some raw → (parseTag raw).1 = (parseTag raw1).1 →
        (∀ n k named, f.ty = ptrChain n (.base k named none) →
          (parseField fl q f).1 =
            ⟨f.tag, f.ty,
              refChain n (coerce fl k (q.Get (parseTag raw1).1) (f.ty.getLeaf f.val)).1⟩) ∧
        (∀ n k named u, f.ty = ptrChain n (.base k named (some u)) → (1 ≤ n ∨ named = true) →
          (parseField fl q f).1 =
            ⟨f.tag, f.ty, refChain n (u (q.Get (parseTag raw1).1) (f.ty.getLeaf f.val)).1⟩) ∧
        (∀ k u, f.ty = .base k false (some u) →
          (parseField fl q f).1 =
            ⟨f.tag, f.ty, (coerce fl k (q.Get (parseTag raw1).1) f.val).1⟩) := by
      intro f raw htag hk
      have hv : q.Get (parseTag raw).1 ≠ [] := by rw [hk]; exact hval
      refine ⟨?_, ?_, ?_⟩
      · intro n k named hty
        rw [parseField_leaf fl q f raw n k named htag hv hty, hk]
      · intro n k named u hty hn
        rw [parseField_custom fl q f raw n k named u htag hv hty hn, hk]
      · intro k u hty
        rw [parseField_unnamed fl q f raw k (some u) htag hv hty, hk]
    intro f hf
    rcases hf with rfl | rfl
    · exact key _ raw1 htag1 rfl
    · exact key _ raw2 htag2 hkey.symm
  · intro f _
    obtain ⟨n, k, named, um, h⟩ := Ty.eq_ptrChain f.ty
    refine ⟨n, k, named, um, h, ?_⟩
    cases um with
    | none => exact Or.inl rfl
    | some u =>
      right
      cases n with
      | succ m => exact Or.inl ⟨by simp, Or.inl (by omega)⟩
      | zero =>
        cases named with
        | true => exact Or.inl ⟨by simp, Or.inr rfl⟩
        | false => exact Or.inr ⟨by simp, rfl, rfl⟩

/-- C12 as amended, on a record with a `utc.UTC` field and a `*utc.UTC` field that both declare
the key `t`, and the input `t=2027-12-20T14:00:00Z`: both fields hold the parsed instant, the
second behind a freshly allocated pointer. -/
theorem ParseQuery_duplicate_key_witness :
    Values.Get [("t".toList, ["2027-12-20T14:00:00Z".toList])] (parseTag "t".toList).1 ≠ [] ∧
      ∃ post1 e,
        ParseQuery testFloat [("t".toList, ["2027-12-20T14:00:00Z".toList])]
            (.pointerToStruct "rec".toList
              [⟨some "t".toList, tyUTC, .int 0⟩, ⟨some "t".toList, .ptr tyUTC, .nil⟩]) =
          .returned (.pointerToStruct "rec".toList
            (⟨some "t".toList, tyUTC, .int 1829311200000000000⟩ ::
              ⟨some "t".toList, .ptr tyUTC, .ref (.int 1829311200000000000)⟩ :: post1)) e ∧
        post1.length = 0 :=
  ⟨by decide,
    let ⟨post1, e, h1, h2, _⟩ := ParseQuery_duplicate_key testFloat
      [("t".toList, ["2027-12-20T14:00:00Z".toList])] "rec".toList [] [] []
      ⟨some "t".toList, tyUTC, .int 0⟩ ⟨some "t".toList, .ptr tyUTC, .nil⟩
      "t".toList "t".toList (by simp) (by simp) rfl rfl rfl (by decide) (by decide)
    ⟨post1, e, h1, h2⟩⟩

/-- C13: a field whose resolved kind has no case in the `switch` and whose type has no
decoder, given any non-empty text, raises no error, and wherever the loop stops the content
under its pointer layers is what it was.  When no earlier field fails, its pointer layers (if
any) are allocated, the leaf keeps its content and the loop goes on with the following fields;
a field that is not a pointer is then left exactly as it was. -/
theorem ParseQuery_unsupported_kind (fl : FloatLib) (q : Values) (name : Str)
    (pre post : List StructField) (f : StructField) (raw : Str)
    (n : Nat) (k : Kind) (named : Bool)
    (htag : f.tag = some raw) (hval : q.Get (parseTag raw).1 ≠ [])
    (hty : f.ty = ptrChain n (.base k named none))
    (hk : k ∉ supportedKinds) :
    (parseField fl q f).2 = none ∧
      (∃ pre1 post1 g e,
        ParseQuery fl q (.pointerToStruct name (pre ++ f :: post)) =
          .returned (.pointerToStruct name (pre1 ++ g :: post1)) e ∧
        pre1.length = pre.length ∧ g.ty = f.ty ∧
        g.ty.getLeaf g.val = f.ty.getLeaf f.val) ∧
      ((∀ g ∈ pre, (parseField fl q g).2 = none) →
        ParseQuery fl q (.pointerToStruct name (pre ++ f :: post)) =
          .returned (.pointerToStruct name
            (pre.map (fun g => (parseField fl q g).1) ++
              ⟨f.tag, f.ty, refChain n (f.ty.getLeaf f.val)⟩ :: (parseFields fl q post).1))
            (parseFields fl q post).2) ∧
      (n = 0 → (⟨f.tag, f.ty, refChain n (f.ty.getLeaf f.val)⟩ : StructField) = f) := by
  have hf := parseField_leaf fl q f raw n k named htag hval hty
  rw [coerce_unsupported fl k _ _ hk] at hf
  refine ⟨by rw [hf], ?_, ?_, ?_⟩
  · obtain ⟨pre1, post1, g, h1, h2, h3⟩ := parseFields_split fl q f post pre
    refine ⟨pre1, post1, g, (parseFields fl q (pre ++ f :: post)).2,
      by rw [ParseQuery_struct, h1], h2, ?_, ?_⟩
    · rcases h3 with h3 | h3
      · rw [h3]
      · rw [h3, hf]
    · rcases h3 with h3 | h3
      · rw [h3]
      · rw [h3, hf]
        simp only
        rw [hty, getLeaf_refChain]
  · intro hpre
    rw [ParseQuery_struct, parseFields_append fl q pre _ hpre,
      parseFields_cons_ok fl q f post (by rw [hf]), hf]
  · intro hn
    subst hn
    rw [hty]
    cases f
    simp only at hty
    subst hty
    rfl

/-- C13 on a record with an `int8` field between `limit` and `q` of the test record, given the
malformed text `abc`: the `int8` field keeps `7` and the following field `q` is decoded. -/
theorem ParseQuery_unsupported_kind_witness :
    Kind.Int8 ∉ supportedKinds ∧
      (ParseQuery testFloat [("i".toList, ["abc".toList]), ("q".toList, ["foo".toList])]
        (.pointerToStruct "rec".toList
          ([] ++ ⟨some "i".toList, .base .Int8 true none, .int 7⟩ ::
            [⟨some "q".toList, .ptr (.base .String true none), .nil⟩]))).fieldVals =
        [.int 7, .ref (.str "foo".toList)] ∧
      (ParseQuery testFloat [("i".toList, ["abc".toList]), ("q".toList, ["foo".toList])]
        (.pointerToStruct "rec".toList
          ([] ++ ⟨some "i".toList, .base .Int8 true none, .int 7⟩ ::
            [⟨some "q".toList, .ptr (.base .String true none), .nil⟩]))).err = none := by
  have h := (ParseQuery_unsupported_kind testFloat
    [("i".toList, ["abc".toList]), ("q".toList, ["foo".toList])] "rec".toList []
    [⟨some "q".toList, .ptr (.base .String true none), .nil⟩]
    ⟨some "i".toList, .base .Int8 true none, .int 7⟩ "i".toList 0 .Int8 true
    rfl (by decide) rfl (by decide)).2.2.1 (by simp)
  rw [h]
  exact ⟨by decide, by decide, by decide⟩

/-- C14, the claim as stated fails when an earlier field fails.  On the test record with
`limit=-1` and `q=foo`, the `*string` field `q` has a non-empty value, but the loop returns at
`limit` and `q` is still a nil pointer after the call. -/
theorem ParseQuery_pointer_chain_unreached :
    Values.Get [("limit".toList, ["-1".toList]), ("q".toList, ["foo".toList])]
        (parseTag "q".toList).1 = "foo".toList ∧
      (ParseQuery testFloat [("limit".toList, ["-1".toList]), ("q".toList, ["foo".toList])]
        (.pointerToStruct "dummyParseQuery".toList dummyParseQuery)).fieldVals =
        [.int 0, .nil, .uint 0, .str [], .nil, .bool false, .float 0] ∧
      (ParseQuery testFloat [("limit".toList, ["-1".toList]), ("q".toList, ["foo".toList])]
        (.pointerToStruct "dummyParseQuery".toList dummyParseQuery)).err =
        some (.WithBad (.numError ⟨"ParseUint".toList, "-1".toList, .ErrSyntax⟩)) := by
  decide

/-- C14 as amended: a field that is one or more pointer layers around a type without a decoder,
whose key has a non-empty value and before which no field fails, ends with every pointer layer
allocated down to the leaf, whether the coercion succeeds or fails.  On success the leaf holds
the decoded value (the raw text for a string).  On failure the error is returned and the leaf
keeps its content, which is the zero value of the leaf kind when the field was a nil
pointer. -/
theorem ParseQuery_pointer_chain (fl : FloatLib) (q : Values) (name : Str)
    (pre post : List StructField) (f : StructField) (raw : Str)
    (n : Nat) (k : Kind) (named : Bool)
    (hpre : ∀ g ∈ pre, (parseField fl q g).2 = none)
    (htag : f.tag = some raw) (hval : q.Get (parseTag raw).1 ≠ [])
    (hty : f.ty = ptrChain (n + 1) (.base k named none)) :
    ∃ post1 e leaf,
      ParseQuery fl q (.pointerToStruct name (pre ++ f :: post)) =
        .returned (.pointerToStruct name
          (pre.map (fun g => (parseField fl q g).1) ++
            ⟨f.tag, f.ty, refChain (n + 1) leaf⟩ :: post1)) e ∧
      post1.length = post.length ∧
      ((coerce fl k (q.Get (parseTag raw).1) (f.ty.getLeaf f.val)).2 = none →
        leaf = (coerce fl k (q.Get (parseTag raw).1) (f.ty.getLeaf f.val)).1 ∧
          (k = .String → leaf = .str (q.Get (parseTag raw).1))) ∧
      (∀ c, (coerce fl k (q.Get (parseTag raw).1) (f.ty.getLeaf f.val)).2 = some c →
        e = some c ∧ leaf = f.ty.getLeaf f.val ∧ (f.val = .nil → leaf = k.zero)) := by
  obtain ⟨post1, e, h1, h2, h3⟩ := parseFields_at fl q pre post f hpre
  have hf := parseField_leaf fl q f raw (n + 1) k named htag hval hty
  refine ⟨post1, e, (coerce fl k (q.Get (parseTag raw).1) (f.ty.getLeaf f.val)).1, ?_, h2,
    ?_, ?_⟩
  · rw [ParseQuery_struct, h1, hf]
  · intro _
    refine ⟨rfl, ?_⟩
    intro hk
    subst hk
    rfl
  · intro c hc
    refine ⟨(h3 c (by rw [hf]; exact hc)).1, coerce_err_unchanged fl k _ _ c hc, ?_⟩
    intro hnil
    rw [coerce_err_unchanged fl k _ _ c hc, hty, hnil]
    exact getLeaf_nil n k named none

/-- C14 as amended, on the test record with `q=foo` (`parser_test.go:41`): the nil `*string` becomes a
pointer to `"foo"`. -/
theorem ParseQuery_pointer_chain_witness :
    Values.Get [("q".toList, ["foo".toList])] (parseTag "q".toList).1 ≠ [] ∧
      ∃ post1 e leaf,
        ParseQuery testFloat [("q".toList, ["foo".toList])]
            (.pointerToStruct "dummyParseQuery".toList
              (dummyParseQuery.take 4 ++
                ⟨some "q".toList, .ptr (.base .String true none), .nil⟩ ::
                  dummyParseQuery.drop 5)) =
          .returned (.pointerToStruct "dummyParseQuery".toList
            ((dummyParseQuery.take 4).map
                (fun g => (parseField testFloat [("q".toList, ["foo".toList])] g).1) ++
              ⟨some "q".toList, .ptr (.base .String true none), .ref leaf⟩ :: post1)) e ∧
        leaf = .str "foo".toList :=
  ⟨by decide,
    let ⟨post1, e, leaf, h1, _, h3, _⟩ := ParseQuery_pointer_chain testFloat
      [("q".toList, ["foo".toList])] "dummyParseQuery".toList
      (dummyParseQuery.take 4) (dummyParseQuery.drop 5)
      ⟨some "q".toList, .ptr (.base .String true none), .nil⟩ "q".toList 0 .String true
      (by decide) rfl (by decide) rfl
    ⟨post1, e, leaf, h1, (h3 rfl).2 rfl⟩⟩

/-- C15, the claim as stated fails when an earlier field fails.  On the test record with
`limit=-1` and `b=true`, the spelling `true` is not stored: the loop returns at `limit` and `b`
stays `false`.  And on a record whose first field is required and absent, `b=yes` does not end
in an invalid-value error but in the missing-field error of the first field. -/
theorem ParseQuery_bool_unreached :
    "true".toList ∈ trueSpellings ∧
      (ParseQuery testFloat [("limit".toList, ["-1".toList]), ("b".toList, ["true".toList])]
        (.pointerToStruct "dummyParseQuery".toList dummyParseQuery)).fieldVals =
        [.int 0, .nil, .uint 0, .str [], .nil, .bool false, .float 0] ∧
      "yes".toList ∉ trueSpellings ∧ "yes".toList ∉ falseSpellings ∧
      (ParseQuery testFloat [("b".toList, ["yes".toList])]
        (.pointerToStruct "rec".toList
          (dummyParseQueryRequired ++
            [⟨some "b".toList, .base .Bool true none, .bool false⟩]))).err =
        some (.Bad ⟨"min".toList, "Missing query string".toList⟩) := by
  decide

/-- C15 as amended: for a boolean field with a non-empty text, before which no field fails,
coercion succeeds exactly on the twelve spellings of `strconv.ParseBool`: the six true
spellings store `true`, the six false spellings store `false`, and on every other text
`ParseQuery` returns the wrapped `strconv` failure and the record is as the loop found it, the
field unchanged. -/
theorem ParseQuery_bool (fl : FloatLib) (q : Values) (name : Str)
    (pre post : List StructField) (f : StructField) (raw : Str) (named : Bool)
    (hpre : ∀ g ∈ pre, (parseField fl q g).2 = none)
    (htag : f.tag = some raw) (hval : q.Get (parseTag raw).1 ≠ [])
    (hty : f.ty = .base .Bool named none) :
    (q.Get (parseTag raw).1 ∈ trueSpellings →
        ParseQuery fl q (.pointerToStruct name (pre ++ f :: post)) =
          .returned (.pointerToStruct name
            (pre.map (fun g => (parseField fl q g).1) ++
              ⟨f.tag, f.ty, .bool true⟩ :: (parseFields fl q post).1))
            (parseFields fl q post).2) ∧
      (q.Get (parseTag raw).1 ∈ falseSpellings →
        ParseQuery fl q (.pointerToStruct name (pre ++ f :: post)) =
          .returned (.pointerToStruct name
            (pre.map (fun g => (parseField fl q g).1) ++
              ⟨f.tag, f.ty, .bool false⟩ :: (parseFields fl q post).1))
            (parseFields fl q post).2) ∧
      (q.Get (parseTag raw).1 ∉ trueSpellings → q.Get (parseTag raw).1 ∉ falseSpellings →
        ParseQuery fl q (.pointerToStruct name (pre ++ f :: post)) =
          .returned (.pointerToStruct name
            (pre.map (fun g => (parseField fl q g).1) ++ f :: post))
            (some (.WithBad (.numError
              ⟨"ParseBool".toList, q.Get (parseTag raw).1, .ErrSyntax⟩)))) ∧
      ((coerce fl .Bool (q.Get (parseTag raw).1) f.val).2 = none ↔
        q.Get (parseTag raw).1 ∈ trueSpellings ∨ q.Get (parseTag raw).1 ∈ falseSpellings) := by
  have hf := parseField_leaf fl q f raw 0 .Bool named htag hval hty
  have hleaf : f.ty.getLeaf f.val = f.val := by rw [hty]; rfl
  rw [hleaf] at hf
  refine ⟨?_, ?_, ?_, ?_⟩
  · intro ht
    have hc : coerce fl .Bool (q.Get (parseTag raw).1) f.val = (.bool true, none) := by
      simp only [coerce, ParseBool_true _ ht]
    rw [hc] at hf
    rw [ParseQuery_struct, parseFields_append fl q pre _ hpre,
      parseFields_cons_ok fl q f post (by rw [hf]), hf]
    rfl
  · intro ht
    have hc : coerce fl .Bool (q.Get (parseTag raw).1) f.val = (.bool false, none) := by
      simp only [coerce, ParseBool_false _ ht]
    rw [hc] at hf
    rw [ParseQuery_struct, parseFields_append fl q pre _ hpre,
      parseFields_cons_ok fl q f post (by rw [hf]), hf]
    rfl
  · intro ht hfa
    have hc : coerce fl .Bool (q.Get (parseTag raw).1) f.val =
        (f.val, some (.WithBad (.numError
          ⟨"ParseBool".toList, q.Get (parseTag raw).1, .ErrSyntax⟩))) := by
      simp only [coerce, ParseBool_other _ ht hfa]
    rw [hc] at hf
    rw [ParseQuery_struct, parseFields_append fl q pre _ hpre,
      parseFields_cons_err fl q f post _ (by rw [hf]), hf]
    rfl
  · by_cases ht : q.Get (parseTag raw).1 ∈ trueSpellings
    · simp only [coerce, ParseBool_true _ ht, ht, true_or]
    · by_cases hfa : q.Get (parseTag raw).1 ∈ falseSpellings
      · simp only [coerce, ParseBool_false _ hfa, hfa, or_true]
      · simp only [coerce, ParseBool_other _ ht hfa, ht, hfa, or_self, iff_false]
        simp

/-- C15 as amended, on the test record with `b=tRuE`: the text is none of the twelve spellings, the call
fails with the `strconv` failure and the record is unchanged. -/
theorem ParseQuery_bool_witness :
    Values.Get [("b".toList, ["tRuE".toList])] (parseTag "b".toList).1 ≠ [] ∧
      (ParseQuery testFloat [("b".toList, ["tRuE".toList])]
        (.pointerToStruct "dummyParseQuery".toList dummyParseQuery)).err =
        some (.WithBad (.numError ⟨"ParseBool".toList, "tRuE".toList, .ErrSyntax⟩)) ∧
      (ParseQuery testFloat [("b".toList, ["tRuE".toList])]
        (.pointerToStruct "dummyParseQuery".toList dummyParseQuery)).fieldVals =
        dummyParseQuery.map (fun g => g.val) := by
  have h := (ParseQuery_bool testFloat [("b".toList, ["tRuE".toList])]
    "dummyParseQuery".toList (dummyParseQuery.take 5) (dummyParseQuery.drop 6)
    ⟨some "b".toList, .base .Bool true none, .bool false⟩ "b".toList true
    (by decide) rfl (by decide) rfl).2.2.1 (by decide) (by decide)
  have hrec : dummyParseQuery.take 5 ++
      ⟨some "b".toList, .base .Bool true none, .bool false⟩ :: dummyParseQuery.drop 6 =
      dummyParseQuery := rfl
  rw [hrec] at h
  rw [h]
  exact ⟨by decide, rfl, by decide⟩

/-- C16: when a key is associated with several values, `ParseQuery` behaves as if only the
first one were there; and when that first value is the empty string, it behaves as if the key
were not in the input at all, whatever values follow. -/
theorem ParseQuery_first_value (fl : FloatLib) (q : Values) (key v : Str) (rest : List Str)
    (t : Target) (h : q.lookup key = some (v :: rest)) :
    ParseQuery fl q t = ParseQuery fl ((key, [v]) :: q) t ∧
      (v = [] → ParseQuery fl q t = ParseQuery fl (q.filter (fun p => p.1 != key)) t) := by
  constructor
  · exact ParseQuery_congr fl _ _ t (Values.Get_first_only q key v rest h)
  · intro hv
    subst hv
    exact ParseQuery_congr fl _ _ t (Values.Get_first_empty q key rest h)

/-- C16 on the test record: with `q` associated with `""` and then `foo` the field `q` stays
nil, as with the empty input; with `limit` associated with `15` and then `16` the field
`limit` holds 15. -/
theorem ParseQuery_first_value_witness :
    List.lookup "q".toList [("q".toList, [[], "foo".toList]),
        ("limit".toList, ["15".toList, "16".toList])] = some ([] :: ["foo".toList]) ∧
      ParseQuery testFloat [("q".toList, [[], "foo".toList]),
          ("limit".toList, ["15".toList, "16".toList])]
          (.pointerToStruct "dummyParseQuery".toList dummyParseQuery) =
        ParseQuery testFloat [("limit".toList, ["15".toList, "16".toList])]
          (.pointerToStruct "dummyParseQuery".toList dummyParseQuery) ∧
      (ParseQuery testFloat [("q".toList, [[], "foo".toList]),
          ("limit".toList, ["15".toList, "16".toList])]
          (.pointerToStruct "dummyParseQuery".toList dummyParseQuery)).fieldVals =
        [.int 0, .nil, .uint 15, .str [], .nil, .bool false, .float 0] :=
  ⟨by decide,
    (ParseQuery_first_value testFloat [("q".toList, [[], "foo".toList]),
      ("limit".toList, ["15".toList, "16".toList])] "q".toList [] ["foo".toList]
      (.pointerToStruct "dummyParseQuery".toList dummyParseQuery) (by decide)).2 rfl,
    by decide⟩

/-- C17: replacing a field's tag by one with the same key whose options agree on containing
the exact option `required` changes neither the error `ParseQuery` returns nor the value of
any field afterwards. -/
theorem ParseQuery_options_irrelevant (fl : FloatLib) (q : Values) (name : Str)
    (pre post : List StructField) (f : StructField) (raw raw2 : Str)
    (htag : f.tag = some raw) (hkey : (parseTag raw).1 = (parseTag raw2).1)
    (hreq : (parseTag raw).2.Contains "required".toList =
      (parseTag raw2).2.Contains "required".toList) :
    (ParseQuery fl q (.pointerToStruct name (pre ++ ⟨some raw2, f.ty, f.val⟩ :: post))).err =
        (ParseQuery fl q (.pointerToStruct name (pre ++ f :: post))).err ∧
      (ParseQuery fl q
          (.pointerToStruct name (pre ++ ⟨some raw2, f.ty, f.val⟩ :: post))).fieldVals =
        (ParseQuery fl q (.pointerToStruct name (pre ++ f :: post))).fieldVals := by
  obtain ⟨h2, h1⟩ := parseField_retag fl q f raw raw2 htag hkey hreq
  obtain ⟨g2, g1⟩ := parseFields_retag fl q pre post f ⟨some raw2, f.ty, f.val⟩ rfl h2 h1
  rw [ParseQuery_struct, ParseQuery_struct]
  exact ⟨g2, g1⟩

/-- C17 on the record `{min required, max optional}` with the tag `min,required` replaced by
`min,x,required,y`, on an input that only supplies `max`: the same missing-field error. -/
theorem ParseQuery_options_irrelevant_witness :
    (parseTag "min,required".toList).1 = (parseTag "min,x,required,y".toList).1 ∧
      (parseTag "min,required".toList).2.Contains "required".toList =
        (parseTag "min,x,required,y".toList).2.Contains "required".toList ∧
      (ParseQuery testFloat [("max".toList, ["2027-12-20T14:00:00Z".toList])]
        (.pointerToStruct "rec".toList
          ([] ++ ⟨some "min,x,required,y".toList, tyUTC, .int 0⟩ ::
            dummyParseQueryRequired.drop 1))).err =
        some (.Bad ⟨"min".toList, "Missing query string".toList⟩) := by
  have h := (ParseQuery_options_irrelevant testFloat
    [("max".toList, ["2027-12-20T14:00:00Z".toList])] "rec".toList []
    (dummyParseQueryRequired.drop 1) ⟨some "min,required".toList, tyUTC, .int 0⟩
    "min,required".toList "min,x,required,y".toList rfl (by decide) (by decide)).1
  refine ⟨by decide, by decide, ?_⟩
  rw [h]
  decide

/-- C18: for integers `0 ≤ s ≤ e ≤ z ≤ 2^63 - 1`, `ParseContentRange` applied to
`bytes <s>-<e>/<z>` in base 10 returns no error and the range with `Start = s`, `End = e` and
`Size = z`. -/
theorem ParseContentRange_valid (s e z : Int) (h0 : 0 ≤ s) (h1 : s ≤ e) (h2 : e ≤ z)
    (h3 : z ≤ 2 ^ 63 - 1) :
    ParseContentRange (contentRangeText s e z) = (some ⟨s, e, z⟩, none) := by
  rw [ParseContentRange_text s e z h0 (by omega) (by omega) (by omega) (by omega) (by omega)]
  have hno : ¬ (s > e ∨ e > z) := by omega
  simp only [hno, if_false]

/-- C18 on the two accepted headers of `range_test.go`, the second with `End = Size`. -/
theorem ParseContentRange_valid_witness :
    contentRangeText 64 128 128 = "bytes 64-128/128".toList ∧
      ParseContentRange (contentRangeText 64 128 128) = (some ⟨64, 128, 128⟩, none) ∧
      ParseContentRange "bytes 0-63/128".toList = (some ⟨0, 63, 128⟩, none) :=
  ⟨by decide,
    ParseContentRange_valid 64 128 128 (by decide) (by decide) (by decide) (by decide),
    by decide⟩

/-- C19: for integers `s`, `e`, `z` in `0 .. 2^63 - 1`, `ParseContentRange` applied to
`bytes <s>-<e>/<z>` returns a nil range with `ErrInvalidRange` exactly when `s > e` or `e > z`;
and whatever the input, `ErrInvalidRange` comes with a nil range and only after the prefix,
both separators and all three numbers were accepted. -/
theorem ParseContentRange_invalid_range (s e z : Int) (hs : 0 ≤ s) (he : 0 ≤ e) (hz : 0 ≤ z)
    (hs2 : s ≤ 2 ^ 63 - 1) (he2 : e ≤ 2 ^ 63 - 1) (hz2 : z ≤ 2 ^ 63 - 1) :
    (ParseContentRange (contentRangeText s e z) = (none, some .ErrInvalidRange) ↔
        (s > e ∨ e > z)) ∧
      (∀ str, (ParseContentRange str).2 = some .ErrInvalidRange →
        ∃ a b c, str = "bytes ".toList ++ ((a ++ '-' :: b) ++ '/' :: c) ∧
          (ParseInt (TrimSpace a)).2 = none ∧ (ParseInt (TrimSpace b)).2 = none ∧
          (ParseInt (TrimSpace c)).2 = none ∧
          ((ParseInt (TrimSpace a)).1 > (ParseInt (TrimSpace b)).1 ∨
            (ParseInt (TrimSpace b)).1 > (ParseInt (TrimSpace c)).1) ∧
          (ParseContentRange str).1 = none) := by
  constructor
  · rw [ParseContentRange_text s e z hs he hz (by omega) (by omega) (by omega)]
    by_cases hno : s > e ∨ e > z
    · simp only [hno, if_true]
    · simp only [hno, if_false, iff_false]
      intro h
      cases h
  · exact ParseContentRange_range_error

/-- C19 on the header `bytes 129-193/128` of `range_test.go:53`. -/
theorem ParseContentRange_invalid_range_witness :
    contentRangeText 129 193 128 = "bytes 129-193/128".toList ∧
      ParseContentRange (contentRangeText 129 193 128) = (none, some .ErrInvalidRange) :=
  ⟨by decide,
    (ParseContentRange_invalid_range 129 193 128 (by decide) (by decide) (by decide)
      (by decide) (by decide) (by decide)).1.mpr (Or.inr (by decide))⟩

/-- C20: `ParseContentRange` returns a nil range with `ErrInvalidFormat` for every text that is
empty, or does not start with `bytes `, or whose remainder does not contain exactly one slash,
or whose part before the slash does not contain exactly one dash, or whose start, end or size
text is, once trimmed, rejected by `strconv.ParseInt` at base 10 and 64 bits. -/
theorem ParseContentRange_invalid_format (str : Str)
    (h : str = [] ∨ "bytes ".toList.isPrefixOf str = false ∨
      ∃ rest, str = "bytes ".toList ++ rest ∧
        (rest.count '/' ≠ 1 ∨
          ∃ ran size, rest = ran ++ '/' :: size ∧ '/' ∉ ran ∧ '/' ∉ size ∧
            (ran.count '-' ≠ 1 ∨ (ParseInt (TrimSpace size)).2 ≠ none ∨
              ∃ a b, ran = a ++ '-' :: b ∧ '-' ∉ a ∧ '-' ∉ b ∧
                ((ParseInt (TrimSpace a)).2 ≠ none ∨ (ParseInt (TrimSpace b)).2 ≠ none)))) :
    ParseContentRange str = (none, some .ErrInvalidFormat) := by
  unfold ParseContentRange
  by_cases hs : str = []
  · simp only [hs, if_true]
  rcases h with h | hp | ⟨rest, hstr, hrest⟩
  · exact absurd h hs
  · simp only [hs, if_false, hp, Bool.false_eq_true, not_false_eq_true, if_true]
  · have hp : "bytes ".toList.isPrefixOf str = true := by
      rw [hstr]
      simp
    have hdrop : str.drop "bytes ".toList.length = rest := by
      rw [hstr]
      exact List.drop_left _ _
    simp only [hs, if_false, hp, not_true_eq_false, hdrop]
    rcases hrest with hcount | ⟨ran, size, e, hr, hsz, hrest2⟩
    · have hnp := stringsSplit_not_pair '/' rest hcount
      rcases hsp : stringsSplit '/' rest with _ | ⟨x, _ | ⟨y, _ | ⟨w, ws⟩⟩⟩
      · rfl
      · rfl
      · exact absurd hsp (hnp x y)
      · rfl
    · rw [e, stringsSplit_pair '/' ran size hr hsz]
      simp only
      by_cases hc : (ParseInt (TrimSpace size)).2 = none
      swap
      · simp only [ne_eq, hc, not_false_eq_true, if_true]
      simp only [ne_eq, hc, not_true_eq_false, if_false]
      rcases hrest2 with hdash | hsize | ⟨a, b, e2, ha, hb, hpar⟩
      · have hnp := stringsSplit_not_pair '-' ran hdash
        rcases hsp : stringsSplit '-' ran with _ | ⟨x, _ | ⟨y, _ | ⟨w, ws⟩⟩⟩
        · rfl
        · rfl
        · exact absurd hsp (hnp x y)
        · rfl
      · exact absurd hc hsize
      · rw [e2, stringsSplit_pair '-' a b ha hb]
        simp only
        by_cases hpa : (ParseInt (TrimSpace a)).2 = none
        swap
        · simp only [hpa, not_false_eq_true, if_true]
        have hpb : (ParseInt (TrimSpace b)).2 ≠ none := by
          rcases hpar with h1 | h1
          · exact absurd hpa h1
          · exact h1
        simp only [hpa, not_true_eq_false, if_false, ne_eq, hpb, not_false_eq_true, if_true]

/-- C20 on the five rejected headers of `range_test.go:32-51`; the last one has no dash before
the slash. -/
theorem ParseContentRange_invalid_format_witness :
    List.count '-' "128".toList ≠ 1 ∧
      ParseContentRange "bytes 128/128".toList = (none, some .ErrInvalidFormat) ∧
      ParseContentRange [] = (none, some .ErrInvalidFormat) ∧
      ParseContentRange "bytes".toList = (none, some .ErrInvalidFormat) ∧
      ParseContentRange "64-128/128".toList = (none, some .ErrInvalidFormat) ∧
      ParseContentRange "bytes 64-128".toList = (none, some .ErrInvalidFormat) :=
  ⟨by decide,
    ParseContentRange_invalid_format "bytes 128/128".toList
      (Or.inr (Or.inr ⟨"128/128".toList, rfl,
        Or.inr ⟨"128".toList, "128".toList, rfl, by decide, by decide, Or.inl (by decide)⟩⟩)),
    by decide, by decide, by decide, by decide⟩

/-- C21: of the three forms listed in the documentation of `ParseContentRange`, the
unknown-size form `bytes 0-63/*` and the unsatisfied-range form `bytes */128` are both
rejected with `ErrInvalidFormat` and a nil range. -/
theorem ParseContentRange_other_forms :
    ParseContentRange "bytes 0-63/*".toList = (none, some .ErrInvalidFormat) ∧
      ParseContentRange "bytes */128".toList = (none, some .ErrInvalidFormat) := by
  decide

/-- C29: whenever `ParseContentRange` returns no error, the returned range is not nil and
satisfies `0 ≤ Start ≤ End ≤ Size`. -/
theorem ParseContentRange_ordered (str : Str) (h : (ParseContentRange str).2 = none) :
    ∃ r, (ParseContentRange str).1 = some r ∧ 0 ≤ r.Start ∧ r.Start ≤ r.End ∧
      r.End ≤ r.Size ∧ 0 ≤ r.End ∧ 0 ≤ r.Size := by
  obtain ⟨r, h1, h2, h3, h4⟩ := ParseContentRange_ok str h
  exact ⟨r, h1, h2, h3, h4, by omega, by omega⟩

/-- C29 on `bytes 0-63/128`, and on a header with the negative size text `-5`, which parses but
ends in `ErrInvalidRange`. -/
theorem ParseContentRange_ordered_witness :
    (ParseContentRange "bytes 0-63/128".toList).2 = none ∧
      (∃ r, (ParseContentRange "bytes 0-63/128".toList).1 = some r ∧ 0 ≤ r.Start ∧
        r.Start ≤ r.End ∧ r.End ≤ r.Size ∧ 0 ≤ r.End ∧ 0 ≤ r.Size) ∧
      (ParseInt "-5".toList) = (-5, none) ∧
      ParseContentRange "bytes 0-1/-5".toList = (none, some .ErrInvalidRange) :=
  ⟨by decide, ParseContentRange_ordered "bytes 0-63/128".toList (by decide), by decide,
    by decide⟩

/-- C30, the claim as stated fails when an earlier field fails.  On a record with the fields
`min`, `max` and `limit` of the test record followed by an `int32` field `n`, the input
`limit=-1` and `n=4294967297` is not accepted without error, and `n` does not store the low 32
bits of the parsed value, which are 1: the loop returns at `limit` and `n` stays 0. -/
theorem ParseQuery_int32_unreached :
    ParseInt "4294967297".toList = (4294967297, none) ∧ wrapInt 32 4294967297 = 1 ∧
      (ParseQuery testFloat
        [("limit".toList, ["-1".toList]), ("n".toList, ["4294967297".toList])]
        (.pointerToStruct "rec".toList (dummyParseQuery.take 3 ++ int32Record))).err =
        some (.WithBad (.numError ⟨"ParseUint".toList, "-1".toList, .ErrSyntax⟩)) ∧
      (ParseQuery testFloat
        [("limit".toList, ["-1".toList]), ("n".toList, ["4294967297".toList])]
        (.pointerToStruct "rec".toList (dummyParseQuery.take 3 ++ int32Record))).fieldVals =
        [.int 0, .nil, .uint 0, .int 0] := by
  decide

/-- C30 as amended: a field of kind `int32` or `uint32` is checked against the 64-bit range
only.  When no earlier field fails and `strconv` accepts the non-empty text at 64 bits, the
field raises no error and stores the parsed value wrapped to 32 bits: a value in the 32-bit
range congruent to the parsed one modulo `2^32`, which differs from it whenever the parsed
value lies outside the 32-bit range. -/
theorem ParseQuery_int32_wraps (fl : FloatLib) (q : Values) (name : Str)
    (pre post : List StructField) (f : StructField) (raw : Str) (k : Kind) (named : Bool)
    (hpre : ∀ g ∈ pre, (parseField fl q g).2 = none)
    (htag : f.tag = some raw) (hval : q.Get (parseTag raw).1 ≠ [])
    (hty : f.ty = .base k named none) :
    (k = .Int32 → ∀ v, ParseInt (q.Get (parseTag raw).1) = (v, none) →
        ParseQuery fl q (.pointerToStruct name (pre ++ f :: post)) =
          .returned (.pointerToStruct name
            (pre.map (fun g => (parseField fl q g).1) ++
              ⟨f.tag, f.ty, .int (wrapInt 32 v)⟩ :: (parseFields fl q post).1))
            (parseFields fl q post).2 ∧
        -2 ^ 31 ≤ wrapInt 32 v ∧ wrapInt 32 v < 2 ^ 31 ∧ (v - wrapInt 32 v) % 2 ^ 32 = 0 ∧
        ((v < -2 ^ 31 ∨ 2 ^ 31 ≤ v) → wrapInt 32 v ≠ v)) ∧
      (k = .Uint32 → ∀ n, ParseUint (q.Get (parseTag raw).1) = (n, none) →
        ParseQuery fl q (.pointerToStruct name (pre ++ f :: post)) =
          .returned (.pointerToStruct name
            (pre.map (fun g => (parseField fl q g).1) ++
              ⟨f.tag, f.ty, .uint (n % 2 ^ 32)⟩ :: (parseFields fl q post).1))
            (parseFields fl q post).2 ∧
        n % 2 ^ 32 < 2 ^ 32 ∧ (2 ^ 32 ≤ n → n % 2 ^ 32 ≠ n)) := by
  have hf := parseField_leaf fl q f raw 0 k named htag hval hty
  have hleaf : f.ty.getLeaf f.val = f.val := by rw [hty]; rfl
  rw [hleaf] at hf
  constructor
  · intro hk v hv
    subst hk
    have hc : coerce fl .Int32 (q.Get (parseTag raw).1) f.val = (.int (wrapInt 32 v), none) := by
      simp only [coerce, hv, SetInt]
    rw [hc] at hf
    refine ⟨?_, ?_, ?_, ?_, ?_⟩
    · rw [ParseQuery_struct, parseFields_append fl q pre _ hpre,
        parseFields_cons_ok fl q f post (by rw [hf]), hf]
      rfl
    · unfold wrapInt
      norm_num
      omega
    · unfold wrapInt
      norm_num
      omega
    · unfold wrapInt
      norm_num
      omega
    · intro hout
      unfold wrapInt
      norm_num
      omega
  · intro hk n hn
    subst hk
    have hc : coerce fl .Uint32 (q.Get (parseTag raw).1) f.val = (.uint (n % 2 ^ 32), none) := by
      simp only [coerce, hn, SetUint]
    rw [hc] at hf
    refine ⟨?_, ?_, ?_⟩
    · rw [ParseQuery_struct, parseFields_append fl q pre _ hpre,
        parseFields_cons_ok fl q f post (by rw [hf]), hf]
      rfl
    · exact Nat.mod_lt _ (by norm_num)
    · intro hout
      have := Nat.mod_lt n (show 0 < 2 ^ 32 by norm_num)
      omega

/-- C30 as amended, on an `int32` field with the text `4294967296`: no error, and the field stores 0. -/
theorem ParseQuery_int32_wraps_witness :
    Values.Get [("n".toList, ["4294967296".toList])] (parseTag "n".toList).1 ≠ [] ∧
      ParseInt "4294967296".toList = (4294967296, none) ∧
      wrapInt 32 4294967296 = 0 ∧
      ParseQuery testFloat [("n".toList, ["4294967296".toList])]
          (.pointerToStruct "rec".toList int32Record) =
        .returned (.pointerToStruct "rec".toList
          [⟨some "n".toList, .base .Int32 true none, .int (wrapInt 32 4294967296)⟩]) none :=
  ⟨by decide, by decide, by decide,
    ((ParseQuery_int32_wraps testFloat [("n".toList, ["4294967296".toList])] "rec".toList
      [] [] ⟨some "n".toList, .base .Int32 true none, .int 0⟩ "n".toList .Int32 true
      (by simp) rfl (by decide) rfl).1 rfl 4294967296 (by decide)).1⟩

end Httputil

namespace Utc

open Httputil

/-! ## Facts about `Max` and `Min` -/

theorem foldl_max_spec (l : List Int) (init : Int) :
    (l.foldl (fun (max t : Int) => if t > max then t else max) init = init ∨
        l.foldl (fun (max t : Int) => if t > max then t else max) init ∈ l) ∧
      init ≤ l.foldl (fun (max t : Int) => if t > max then t else max) init ∧
      ∀ t ∈ l, t ≤ l.foldl (fun (max t : Int) => if t > max then t else max) init := by
  induction l generalizing init with
  | nil => simp
  | cons a l ih =>
    simp only [List.foldl_cons]
    obtain ⟨h1, h2, h3⟩ := ih (if a > init then a else init)
    refine ⟨?_, ?_, ?_⟩
    · rcases h1 with h1 | h1
      · by_cases ha : a > init
        · simp only [ha, if_true] at h1 ⊢
          right
          rw [h1]
          exact List.mem_cons_self _ _
        · simp only [ha, if_false] at h1 ⊢
          left
          exact h1
      · right
        exact List.mem_cons_of_mem _ h1
    · by_cases ha : a > init
      · simp only [ha, if_true] at h2 ⊢
        omega
      · simp only [ha, if_false] at h2 ⊢
        exact h2
    · intro t ht
      rcases List.mem_cons.mp ht with rfl | ht
      · by_cases ha : t > init
        · simp only [ha, if_true] at h2 ⊢
          exact h2
        · simp only [ha, if_false] at h2 ⊢
          omega
      · exact h3 t ht

theorem foldl_min_spec (l : List Int) (init : Int) :
    (l.foldl (fun (min t : Int) => if t < min then t else min) init = init ∨
        l.foldl (fun (min t : Int) => if t < min then t else min) init ∈ l) ∧
      l.foldl (fun (min t : Int) => if t < min then t else min) init ≤ init ∧
      ∀ t ∈ l, l.foldl (fun (min t : Int) => if t < min then t else min) init ≤ t := by
  induction l generalizing init with
  | nil => simp
  | cons a l ih =>
    simp only [List.foldl_cons]
    obtain ⟨h1, h2, h3⟩ := ih (if a < init then a else init)
    refine ⟨?_, ?_, ?_⟩
    · rcases h1 with h1 | h1
      · by_cases ha : a < init
        · simp only [ha, if_true] at h1 ⊢
          right
          rw [h1]
          exact List.mem_cons_self _ _
        · simp only [ha, if_false] at h1 ⊢
          left
          exact h1
      · right
        exact List.mem_cons_of_mem _ h1
    · by_cases ha : a < init
      · simp only [ha, if_true] at h2 ⊢
        omega
      · simp only [ha, if_false] at h2 ⊢
        exact h2
    · intro t ht
      rcases List.mem_cons.mp ht with rfl | ht
      · by_cases ha : t < init
        · simp only [ha, if_true] at h2 ⊢
          exact h2
        · simp only [ha, if_false] at h2 ⊢
          omega
      · exact h3 t ht

/-- On a non-empty list of `int64` values `Max` is the greatest element. -/
theorem Max_spec (l : List Int) (hl : l ≠ []) (h : ∀ t ∈ l, isInt64 t) :
    Max l ∈ l ∧ ∀ t ∈ l, t ≤ Max l := by
  have hlen : ¬ l.length = 0 := by simpa using hl
  obtain ⟨h1, -, h3⟩ := foldl_max_spec l MinInt64
  simp only [Max, hlen, if_false]
  refine ⟨?_, h3⟩
  rcases h1 with h1 | h1
  · obtain ⟨a, ha⟩ := List.exists_mem_of_ne_nil l hl
    have hle : a ≤ MinInt64 := by
      have := h3 a ha
      rw [h1] at this
      exact this
    have hge : MinInt64 ≤ a := (h a ha).1
    have : a = MinInt64 := le_antisymm hle hge
    rw [h1, ← this]
    exact ha
  · exact h1

/-- On a non-empty list of `int64` values `Min` is the least element. -/
theorem Min_spec (l : List Int) (hl : l ≠ []) (h : ∀ t ∈ l, isInt64 t) :
    Min l ∈ l ∧ ∀ t ∈ l, Min l ≤ t := by
  have hlen : ¬ l.length = 0 := by simpa using hl
  obtain ⟨h1, -, h3⟩ := foldl_min_spec l MaxInt64
  simp only [Min, hlen, if_false]
  refine ⟨?_, h3⟩
  rcases h1 with h1 | h1
  · obtain ⟨a, ha⟩ := List.exists_mem_of_ne_nil l hl
    have hle : MaxInt64 ≤ a := by
      have := h3 a ha
      rw [h1] at this
      exact this
    have hge : a ≤ MaxInt64 := (h a ha).2
    have : a = MaxInt64 := le_antisymm hge hle
    rw [h1, ← this]
    exact ha
  · exact h1

/-! ## Facts about `time.Unix` and `Time.UnixNano` -/

theorem wrap64_id (x : Int) (h : isInt64 x) : wrapInt 64 x = x := by
  obtain ⟨h1, h2⟩ := h
  unfold MinInt64 at h1
  unfold MaxInt64 at h2
  exact wrapInt_of_range x h1 (by omega)

theorem wrap64_add (a b : Int) : wrapInt 64 (wrapInt 64 a + b) = wrapInt 64 (a + b) := by
  unfold wrapInt
  norm_num
  omega

/-- Go's truncated division by `10^9`: quotient and remainder, the remainder with the sign of
the dividend. -/
theorem tdiv_tmod_billion (u : Int) :
    u = 1000000000 * Int.tdiv u 1000000000 + Int.tmod u 1000000000 ∧
      (0 ≤ u → 0 ≤ Int.tmod u 1000000000 ∧ Int.tmod u 1000000000 < 1000000000) ∧
      (u < 0 → -1000000000 < Int.tmod u 1000000000 ∧ Int.tmod u 1000000000 ≤ 0) := by
  refine ⟨(Int.tdiv_add_tmod u 1000000000).symm, ?_, ?_⟩
  · intro h
    exact ⟨Int.tmod_nonneg _ h, Int.tmod_lt_of_pos _ (by norm_num)⟩
  · intro h
    cases u with
    | ofNat m => exact absurd h (by simp)
    | negSucc m =>
      have hm : (m + 1) % 1000000000 < 1000000000 := Nat.mod_lt _ (by norm_num)
      have he : Int.tmod (Int.negSucc m) 1000000000 =
          -(((m + 1) % 1000000000 : Nat) : Int) := rfl
      rw [he]
      omega

/-- `time.Unix(0, u)` is the instant `u` nanoseconds after the epoch, in normal form. -/
theorem Unix_zero (u : Int) (h : isInt64 u) :
    ∃ sec nsec, Unix 0 u = ⟨sec, nsec, .Local⟩ ∧ 0 ≤ nsec ∧ nsec < 1000000000 ∧
      sec * 1000000000 + nsec = u := by
  obtain ⟨hd, hpos, hneg⟩ := tdiv_tmod_billion u
  obtain ⟨h1, h2⟩ := h
  unfold MinInt64 at h1
  unfold MaxInt64 at h2
  by_cases hin : u < 0 ∨ u ≥ 1000000000
  · have hq : isInt64 (Int.tdiv u 1000000000) := by
      unfold isInt64 MinInt64 MaxInt64
      rcases hin with hlt | hge
      · have := hneg hlt
        omega
      · have := hpos (by omega)
        omega
    have hm : isInt64 (Int.tdiv u 1000000000 * 1000000000) := by
      unfold isInt64 MinInt64 MaxInt64
      rcases hin with hlt | hge
      · have := hneg hlt
        omega
      · have := hpos (by omega)
        omega
    have hr : isInt64 (Int.tmod u 1000000000) := by
      unfold isInt64 MinInt64 MaxInt64
      rcases hin with hlt | hge
      · have := hneg hlt
        omega
      · have := hpos (by omega)
        omega
    have hreq : u - Int.tdiv u 1000000000 * 1000000000 = Int.tmod u 1000000000 := by omega
    simp only [Unix, hin, if_true, zero_add, wrap64_id _ hq, wrap64_id _ hm, hreq,
      wrap64_id _ hr]
    by_cases hlt : Int.tmod u 1000000000 < 0
    · have hu : u < 0 := by
        by_contra hc
        have := hpos (by omega)
        omega
      have hb := hneg hu
      have hs : isInt64 (Int.tdiv u 1000000000 - 1) := by
        unfold isInt64 MinInt64 MaxInt64
        omega
      have hn : isInt64 (Int.tmod u 1000000000 + 1000000000) := by
        unfold isInt64 MinInt64 MaxInt64
        omega
      simp only [hlt, if_true, wrap64_id _ hs, wrap64_id _ hn]
      exact ⟨_, _, rfl, by omega, by omega, by omega⟩
    · simp only [hlt, if_false]
      refine ⟨_, _, rfl, by omega, ?_, by omega⟩
      rcases hin with hlt2 | hge
      · have := hneg hlt2
        omega
      · have := hpos (by omega)
        omega
  · simp only [Unix, hin, if_false]
    exact ⟨0, u, rfl, by omega, by omega, by omega⟩

theorem UnixNano_eq (sec nsec : Int) (loc : Location)
    (h : isInt64 (sec * 1000000000 + nsec)) :
    Time.UnixNano ⟨sec, nsec, loc⟩ = sec * 1000000000 + nsec := by
  simp only [Time.UnixNano]
  rw [wrap64_add, wrap64_id _ h]

/-! ## The claims about package `utc` -/

/-- C22: for an instant before 1970 `Floor` does not round down to the precision.  Six hours
before the epoch (1969-12-31T18:00:00Z) floored to a day gives twelve hours before the epoch,
which is no multiple of a day; the greatest multiple of a day not above the instant is one
day before the epoch. -/
theorem Floor_before_epoch :
    isInt64 eveningBeforeEpoch ∧ 0 < day ∧
      UTC.Floor eveningBeforeEpoch day = some (-43200000000000) ∧
      (-43200000000000 : Int) % day ≠ 0 ∧
      (-day) % day = 0 ∧ -day ≤ eveningBeforeEpoch ∧ eveningBeforeEpoch - -day < day := by
  decide

/-- C23: for an instant before 1970 `Ceil` does not round up to the precision.  Six hours
before the epoch (1969-12-31T18:00:00Z) rounded up to a day gives twelve hours after the
epoch, which is no multiple of a day; the least multiple of a day not below the instant is the
epoch itself. -/
theorem Ceil_before_epoch :
    isInt64 eveningBeforeEpoch ∧ 0 < day ∧
      UTC.Ceil eveningBeforeEpoch day = some 43200000000000 ∧
      (43200000000000 : Int) % day ≠ 0 ∧
      (0 : Int) % day = 0 ∧ eveningBeforeEpoch ≤ 0 ∧ 0 - eveningBeforeEpoch < day := by
  decide

/-- C24: for 1900-12-31T18:00:00Z, `BeginningOfDay` is 1900-12-31T12:00:00Z, not midnight, and
`EndOfDay` is 1901-01-01T11:59:59.999999999Z, an instant of the next day; midnight of that day
is 1900-12-31T00:00:00Z.  The instant named in the claim, 1900-12-31T12:00:00Z, is one of the
two times of day for which the result is right. -/
theorem BeginningOfDay_before_epoch :
    isInt64 (-2177474400000000000) ∧
      UTC.BeginningOfDay (-2177474400000000000) = some (-2177496000000000000) ∧
      (-2177496000000000000 : Int) % day ≠ 0 ∧
      UTC.EndOfDay (-2177474400000000000) = some (-2177409600000000001) ∧
      (-2177539200000000000 : Int) % day = 0 ∧
      (-2177539200000000000 : Int) ≤ -2177474400000000000 ∧
      (-2177474400000000000 : Int) - -2177539200000000000 < day ∧
      UTC.BeginningOfDay (-2177496000000000000) = some (-2177539200000000000) := by
  decide

/-- C25: `Distance` wraps around.  From the greatest `UTC` to the instant one nanosecond before
the epoch the difference `2^63` exceeds the maximum `Duration`, and the result is the minimum
`Duration`; in the other direction the result is the maximum where the difference is below the
minimum. -/
theorem Distance_wraps :
    isInt64 MaxInt64 ∧ isInt64 (-1) ∧ MaxInt64 - -1 > MaxInt64 ∧
      UTC.Distance MaxInt64 (-1) = MinInt64 ∧
      isInt64 MinInt64 ∧ isInt64 1 ∧ MinInt64 - 1 < MinInt64 ∧
      UTC.Distance MinInt64 1 = MaxInt64 := by
  decide

/-- C26: on a non-empty list of `UTC` values `Max` is an element that is at least every
element and `Min` an element that is at most every element, whatever the order of the list; on
the empty list both are `UTC(0)`. -/
theorem Max_Min_spec (l : List Int) (h : ∀ t ∈ l, isInt64 t) :
    (l ≠ [] → (Max l ∈ l ∧ ∀ t ∈ l, t ≤ Max l) ∧ (Min l ∈ l ∧ ∀ t ∈ l, Min l ≤ t)) ∧
      (∀ l2 : List Int, l2.Perm l → Max l2 = Max l ∧ Min l2 = Min l) ∧
      Max [] = 0 ∧ Min [] = 0 := by
  refine ⟨fun hl => ⟨Max_spec l hl h, Min_spec l hl h⟩, ?_, rfl, rfl⟩
  intro l2 hp
  by_cases hl : l = []
  · subst hl
    rw [List.Perm.eq_nil hp]
    exact ⟨rfl, rfl⟩
  · have hl2 : l2 ≠ [] := by
      intro e
      subst e
      exact hl (List.Perm.eq_nil hp.symm)
    have h2 : ∀ t ∈ l2, isInt64 t := fun t ht => h t (hp.mem_iff.mp ht)
    obtain ⟨a1, a2⟩ := Max_spec l hl h
    obtain ⟨b1, b2⟩ := Max_spec l2 hl2 h2
    obtain ⟨c1, c2⟩ := Min_spec l hl h
    obtain ⟨d1, d2⟩ := Min_spec l2 hl2 h2
    constructor
    · exact le_antisymm (a2 _ (hp.mem_iff.mp b1)) (b2 _ (hp.mem_iff.mpr a1))
    · exact le_antisymm (d2 _ (hp.mem_iff.mpr c1)) (c2 _ (hp.mem_iff.mp d1))

/-- C26 on the list of 1900-01-01, 1970-01-01 and 2040-01-01 (`utc_test.go:44-51`, `84-90`)
extended by the least and the greatest `int64`. -/
theorem Max_Min_spec_witness :
    (∀ t ∈ [-2208988800000000000, 0, MinInt64, 2208988800000000000, MaxInt64], isInt64 t) ∧
      (Max [-2208988800000000000, 0, MinInt64, 2208988800000000000, MaxInt64] ∈
          [-2208988800000000000, 0, MinInt64, 2208988800000000000, MaxInt64] ∧
        ∀ t ∈ [-2208988800000000000, 0, MinInt64, 2208988800000000000, MaxInt64],
          t ≤ Max [-2208988800000000000, 0, MinInt64, 2208988800000000000, MaxInt64]) ∧
      Max [-2208988800000000000, 0, MinInt64, 2208988800000000000, MaxInt64] = MaxInt64 ∧
      Min [-2208988800000000000, 0, MinInt64, 2208988800000000000, MaxInt64] = MinInt64 ∧
      Max [-2208988800000000000, 0, 2208988800000000000] = 2208988800000000000 ∧
      Min [2208988800000000000, 0, -2208988800000000000] = -2208988800000000000 :=
  ⟨by decide,
    ((Max_Min_spec [-2208988800000000000, 0, MinInt64, 2208988800000000000, MaxInt64]
      (by decide)).1 (by simp)).1,
    by decide, by decide, by decide, by decide⟩

/-- C27: gob encoding round-trips.  `GobEncode` returns the base-10 text of the value and no
error; `GobDecode` of that text succeeds and sets the receiver to the value; `GobDecode` of a
text that `strconv.ParseInt` rejects returns that error and leaves the receiver as it was. -/
theorem Gob_roundtrip (t recv : Int) (h : isInt64 t) :
    UTC.GobEncode t = (FormatInt t, none) ∧
      UTC.GobDecode recv (UTC.GobEncode t).1 = (t, none) ∧
      ∀ data e, (ParseInt data).2 = some e → UTC.GobDecode recv data = (recv, some e) := by
  obtain ⟨h1, h2⟩ := h
  unfold MinInt64 at h1
  unfold MaxInt64 at h2
  have hp := ParseInt_FormatInt t h1 (by omega)
  refine ⟨rfl, ?_, ?_⟩
  · simp only [UTC.GobEncode, UTC.GobDecode, hp]
  · intro data e he
    simp only [UTC.GobDecode, he]

/-- C27 on 1900-12-31T00:00:00Z (`utc_test.go:149`), a negative value, decoded into a
receiver holding 5; and the text `12x` leaves the receiver at 5. -/
theorem Gob_roundtrip_witness :
    isInt64 (-2177539200000000000) ∧
      (UTC.GobEncode (-2177539200000000000)).1 = "-2177539200000000000".toList ∧
      UTC.GobDecode 5 (UTC.GobEncode (-2177539200000000000)).1 =
        (-2177539200000000000, none) ∧
      UTC.GobDecode 5 "12x".toList =
        (5, some ⟨"ParseInt".toList, "12x".toList, .ErrSyntax⟩) :=
  ⟨by decide, by decide, (Gob_roundtrip (-2177539200000000000) 5 (by decide)).2.1,
    by decide⟩

/-- C28: conversion round-trips.  For a `time.Time` in normal form whose Unix time in
nanoseconds is an `int64`, `Convert(x).Time()` is the same instant with the location UTC; and
for every `UTC` value `u`, `Convert(u.Time()) = u`. -/
theorem Convert_roundtrip :
    (∀ x : Time, 0 ≤ x.nsec → x.nsec < 1000000000 →
        isInt64 (x.sec * 1000000000 + x.nsec) → UTC.Time (Convert x) = x.UTC) ∧
      (∀ u : Int, isInt64 u → Convert (UTC.Time u) = u) := by
  constructor
  · intro x h0 h1 hfit
    have hc : Convert x = x.sec * 1000000000 + x.nsec := by
      simp only [Convert, Time.UTC]
      exact UnixNano_eq _ _ _ hfit
    obtain ⟨sec, nsec, hU, g0, g1, hsum⟩ := Unix_zero _ hfit
    have hsec : sec = x.sec := by omega
    have hnsec : nsec = x.nsec := by omega
    rw [hc]
    simp only [UTC.Time, hU, Time.UTC, hsec, hnsec]
  · intro u hu
    obtain ⟨sec, nsec, hU, g0, g1, hsum⟩ := Unix_zero u hu
    simp only [Convert, UTC.Time, hU, Time.UTC]
    rw [UnixNano_eq _ _ _ (by rw [hsum]; exact hu), hsum]


/-! ## Rounding from the epoch on, and moving along the time line -/

/-- For a non-negative dividend and a positive divisor Go's remainder is the Euclidean one. -/
theorem tmod_nonneg_pos (t p : Int) (ht : 0 ≤ t) (hp : 0 < p) :
    0 ≤ Int.tmod t p ∧ Int.tmod t p < p ∧ Int.tmod t p ≤ t ∧ p ∣ t - Int.tmod t p ∧
      (p ∣ t ↔ Int.tmod t p = 0) := by
  have he : Int.tmod t p = t % p := Int.tmod_eq_emod ht (le_of_lt hp)
  rw [he]
  refine ⟨Int.emod_nonneg _ (ne_of_gt hp), Int.emod_lt_of_pos _ hp, ?_, ?_, ?_⟩
  · have hq : 0 ≤ p * (t / p) := mul_nonneg (le_of_lt hp) (Int.ediv_nonneg ht (le_of_lt hp))
    have hs : t % p + p * (t / p) = t := Int.emod_add_ediv t p
    linarith
  · exact Int.dvd_sub_of_emod_eq rfl
  · exact Int.dvd_iff_emod_eq_zero

/-- `abs` leaves a non-negative value as it is. -/
theorem abs_nonneg_id (t : Int) (ht : 0 ≤ t) : abs t = t := by
  unfold abs
  rw [if_neg (not_lt.mpr ht)]

/-- A non-negative multiple of the precision is its own `Floor` and its own `Ceil`. -/
theorem Floor_Ceil_multiple (f p : Int) (hf : 0 ≤ f) (hfit : isInt64 f) (hp : 0 < p)
    (hd : p ∣ f) : UTC.Floor f p = some f ∧ UTC.Ceil f p = some f := by
  have hz : Int.tmod f p = 0 := (tmod_nonneg_pos f p hf hp).2.2.2.2.mp hd
  have hne : p ≠ 0 := ne_of_gt hp
  constructor
  · simp only [UTC.Floor, if_neg hne, abs_nonneg_id f hf, hz, sub_zero, wrap64_id f hfit]
  · simp only [UTC.Ceil, if_neg hne, abs_nonneg_id f hf, hz, sub_zero, wrap64_id f hfit,
      gt_iff_lt, lt_irrefl, if_false]

/-- For a non-negative instant `Floor` subtracts the Euclidean remainder. -/
theorem Floor_nonneg (t p : Int) (ht : 0 ≤ t) (hfit : isInt64 t) (hp : 0 < p) :
    UTC.Floor t p = some (t - Int.tmod t p) := by
  obtain ⟨h0, h1, h2, -, -⟩ := tmod_nonneg_pos t p ht hp
  have hne : p ≠ 0 := ne_of_gt hp
  have hr : isInt64 (t - Int.tmod t p) := by
    unfold isInt64 MinInt64 MaxInt64 at *
    omega
  simp only [UTC.Floor, if_neg hne, abs_nonneg_id t ht, wrap64_id _ hr]

/-- For a non-negative instant `Ceil` is the `Floor` when the remainder is zero and the
`Floor` plus the precision otherwise. -/
theorem Ceil_nonneg (t p : Int) (ht : 0 ≤ t) (hp : 0 < p) (hrep : isInt64 (t + p)) :
    UTC.Ceil t p =
      some (if Int.tmod t p = 0 then t - Int.tmod t p else t - Int.tmod t p + p) := by
  obtain ⟨h0, h1, h2, -, -⟩ := tmod_nonneg_pos t p ht hp
  have hne : p ≠ 0 := ne_of_gt hp
  have hr : isInt64 (t - Int.tmod t p) := by
    unfold isInt64 MinInt64 MaxInt64 at *
    omega
  have hr2 : isInt64 (t - Int.tmod t p + p) := by
    unfold isInt64 MinInt64 MaxInt64 at *
    omega
  by_cases hz : Int.tmod t p = 0
  · have hng : ¬ Int.tmod t p > 0 := by omega
    simp only [UTC.Ceil, if_neg hne, abs_nonneg_id t ht, if_neg hng, if_pos hz]
    rw [wrap64_id _ hr]
  · have hg : Int.tmod t p > 0 := by omega
    simp only [UTC.Ceil, if_neg hne, abs_nonneg_id t ht, if_pos hg, if_neg hz]
    rw [wrap64_id _ hr, wrap64_id _ hr2]

/-- Subtraction after a wrapped operation wraps as the exact difference does. -/
theorem wrap64_sub (a b : Int) : wrapInt 64 (wrapInt 64 a - b) = wrapInt 64 (a - b) := by
  rw [sub_eq_add_neg, wrap64_add, ← sub_eq_add_neg]

/-! ## The claims about rounding, formatting and arithmetic -/

/-- C31: for a non-negative `UTC` value `t` and a positive precision `p` with `t + p`
representable, `Floor` and `Ceil` return multiples of `p` with `Floor ≤ t ≤ Ceil`; their
difference is 0 when `t` is a multiple of `p` and `p` otherwise; and both are idempotent. -/
theorem Floor_Ceil_nonneg (t p : Int) (ht : 0 ≤ t) (hp : 0 < p) (hrep : isInt64 (t + p)) :
    ∃ f c : Int, UTC.Floor t p = some f ∧ UTC.Ceil t p = some c ∧
      p ∣ f ∧ p ∣ c ∧ f ≤ t ∧ t ≤ c ∧
      (p ∣ t → c - f = 0) ∧ (¬ p ∣ t → c - f = p) ∧
      UTC.Floor f p = some f ∧ UTC.Ceil c p = some c := by
  obtain ⟨h0, h1, h2, hdv, hiff⟩ := tmod_nonneg_pos t p ht hp
  have hfit : isInt64 t := by
    unfold isInt64 MinInt64 MaxInt64 at *
    omega
  have hF := Floor_nonneg t p ht hfit hp
  have hC := Ceil_nonneg t p ht hp hrep
  have hf0 : 0 ≤ t - Int.tmod t p := by omega
  have hffit : isInt64 (t - Int.tmod t p) := by
    unfold isInt64 MinInt64 MaxInt64 at *
    omega
  by_cases hz : Int.tmod t p = 0
  · rw [if_pos hz] at hC
    refine ⟨_, _, hF, hC, hdv, hdv, by omega, by omega, fun _ => by omega, ?_,
      (Floor_Ceil_multiple _ p hf0 hffit hp hdv).1, (Floor_Ceil_multiple _ p hf0 hffit hp hdv).2⟩
    intro hnd
    exact absurd (hiff.mpr hz) hnd
  · rw [if_neg hz] at hC
    have hc0 : 0 ≤ t - Int.tmod t p + p := by omega
    have hcfit : isInt64 (t - Int.tmod t p + p) := by
      unfold isInt64 MinInt64 MaxInt64 at *
      omega
    have hdc : p ∣ t - Int.tmod t p + p := Dvd.dvd.add hdv (dvd_refl p)
    refine ⟨_, _, hF, hC, hdv, hdc, by omega, by omega, ?_, fun _ => by omega,
      (Floor_Ceil_multiple _ p hf0 hffit hp hdv).1, (Floor_Ceil_multiple _ p hc0 hcfit hp hdc).2⟩
    intro hd
    exact absurd (hiff.mp hd) hz

/-- C31 on 2006-01-02T15:04:05Z (`utc_test.go`) rounded to a day: `Floor` is midnight of that
day and `Ceil` midnight of the next, one day apart, and rounding either again changes
nothing. -/
theorem Floor_Ceil_nonneg_witness :
    (0 : Int) ≤ 1136214245000000000 ∧ 0 < day ∧
      isInt64 (1136214245000000000 + day) ∧
      UTC.Floor 1136214245000000000 day = some 1136160000000000000 ∧
      UTC.Ceil 1136214245000000000 day = some 1136246400000000000 ∧
      ∃ f c : Int, UTC.Floor 1136214245000000000 day = some f ∧
        UTC.Ceil 1136214245000000000 day = some c ∧
        day ∣ f ∧ day ∣ c ∧ f ≤ 1136214245000000000 ∧ 1136214245000000000 ≤ c ∧
        (day ∣ 1136214245000000000 → c - f = 0) ∧
        (¬ day ∣ 1136214245000000000 → c - f = day) ∧
        UTC.Floor f day = some f ∧ UTC.Ceil c day = some c :=
  ⟨by decide, by decide, by decide, by decide, by decide,
    Floor_Ceil_nonneg 1136214245000000000 day (by decide) (by decide) (by decide)⟩

/-- C32: the locale table does not map every key to the translator of its own locale.  The key
`it-CH` is paired with the translator of `it_IT` and the key `it-IT` with the translator of
`it_CH`, so each of the three formatting functions renders a Swiss Italian tag with the tables
of Italy and the reverse.  The other ten keys are paired with their own locale, and a text that
is no key selects the English fallback. -/
theorem localeMapper_italian_swapped :
    localeMapper.lookup "it-CH".toList = some ⟨"it_IT".toList⟩ ∧
      localeMapper.lookup "it-IT".toList = some ⟨"it_CH".toList⟩ ∧
      localeOfKey "it-CH".toList = "it_CH".toList ∧
      localeOfKey "it-IT".toList = "it_IT".toList ∧
      (⟨"it_IT".toList⟩ : Translator) ≠ ⟨"it_CH".toList⟩ ∧
      (∀ (lib : Locales) (u : Int),
        FormatDateLong lib u "it-CH".toList = lib.FmtDateLong ⟨"it_IT".toList⟩ (UTC.Time u) ∧
        FormatDateShort lib u "it-CH".toList = lib.FmtDateShort ⟨"it_IT".toList⟩ (UTC.Time u) ∧
        FormatTimeShort lib u "it-CH".toList = lib.FmtTimeShort ⟨"it_IT".toList⟩ (UTC.Time u) ∧
        FormatDateLong lib u "it-IT".toList = lib.FmtDateLong ⟨"it_CH".toList⟩ (UTC.Time u) ∧
        FormatDateShort lib u "it-IT".toList = lib.FmtDateShort ⟨"it_CH".toList⟩ (UTC.Time u) ∧
        FormatTimeShort lib u "it-IT".toList =
          lib.FmtTimeShort ⟨"it_CH".toList⟩ (UTC.Time u)) ∧
      (∀ e ∈ localeMapper, e.1 ≠ "it-CH".toList → e.1 ≠ "it-IT".toList →
        e.2.Locale = localeOfKey e.1) ∧
      (∀ (lib : Locales) (u : Int) (lang : Str), localeMapper.lookup lang = none →
        FormatDateLong lib u lang = lib.FmtDateLong ⟨"en".toList⟩ (UTC.Time u) ∧
        FormatDateShort lib u lang = lib.FmtDateShort ⟨"en".toList⟩ (UTC.Time u) ∧
        FormatTimeShort lib u lang = lib.FmtTimeShort ⟨"en".toList⟩ (UTC.Time u)) := by
  refine ⟨by decide, by decide, by decide, by decide, by decide, ?_, by decide, ?_⟩
  · intro lib u
    exact ⟨rfl, rfl, rfl, rfl, rfl, rfl⟩
  · intro lib u lang h
    simp only [FormatDateLong, FormatDateShort, FormatTimeShort, h, fallback, and_self]

/-- C33: `Add` and `Sub` are mutually inverse in 64-bit wrap-around arithmetic, and the
`Distance` from `t` to `t.Add(d)` is `d`, for every `UTC` value `t` and duration `d`. -/
theorem Add_Sub_inverse (t d : Int) (ht : isInt64 t) (hd : isInt64 d) :
    UTC.Sub (UTC.Add t d) d = t ∧ UTC.Add (UTC.Sub t d) d = t ∧
      UTC.Distance (UTC.Add t d) t = d := by
  unfold UTC.Sub UTC.Add UTC.Distance
  rw [wrap64_sub, wrap64_sub, sub_eq_add_neg t d, wrap64_add, add_sub_cancel_right,
    add_sub_cancel_left, neg_add_cancel_right, wrap64_id t ht, wrap64_id d hd]
  exact ⟨rfl, rfl, rfl⟩

/-- C33 where the sum overflows: adding one hour to the greatest `UTC` wraps to a negative
value, and subtracting the hour again, or taking the distance, still gives back the
operands; and on the first row of `TestAdd`, 2006-01-02T15:04:05Z plus one hour. -/
theorem Add_Sub_inverse_witness :
    isInt64 MaxInt64 ∧ isInt64 3600000000000 ∧
      UTC.Add MaxInt64 3600000000000 = MinInt64 + 3599999999999 ∧
      UTC.Add 1136214245000000000 3600000000000 = 1136217845000000000 ∧
      UTC.Sub (UTC.Add MaxInt64 3600000000000) 3600000000000 = MaxInt64 ∧
      UTC.Add (UTC.Sub MaxInt64 3600000000000) 3600000000000 = MaxInt64 ∧
      UTC.Distance (UTC.Add MaxInt64 3600000000000) MaxInt64 = 3600000000000 :=
  ⟨by decide, by decide, by decide, by decide,
    (Add_Sub_inverse MaxInt64 3600000000000 (by decide) (by decide)).1,
    (Add_Sub_inverse MaxInt64 3600000000000 (by decide) (by decide)).2.1,
    (Add_Sub_inverse MaxInt64 3600000000000 (by decide) (by decide)).2.2⟩

end Utc
